import Mathlib

/-!
# ParallelComputing_Lab4: TLV framing, session loop and anti-diagonal kernel

A shallow embedding of `src/Server/Server.cpp` and `src/Client.cpp`.

Conventions of the embedding

* A `char` is a `Byte` (its bit pattern, `0..255`).  `uint32_t` values are
  naturals below `2^32`; `int` values are integers, converted with `i32`
  (two's complement, 32 bits); `long long` arithmetic wraps with `i64`.
* The host is little-endian (the Winsock targets): `htonl`/`ntohl` reverse the
  four bytes of a word and `mem32`/`load32` are the in-memory (lowest byte
  first) image of a word.
* A receiving socket is the list of segments that successive `recv` calls can
  deliver; an empty segment, or no segment at all, is `recv` returning `0`
  (peer closed).  `send` on the blocking socket accepts the whole request.
* An access outside a `vector`, or an `int` index that leaves the `int`
  range, is undefined behaviour and is modelled by `none`.
-/

namespace Lab4

/-! ## Machine integers and memory images -/

/-- One `char` of a `vector<char>`, as its bit pattern. -/
abbrev Byte := Fin 256

/-- The low eight bits of a natural number, as a byte. -/
def byte (x : Nat) : Byte := ⟨x % 256, Nat.mod_lt x (by decide)⟩

/-- Conversion of an integer value to `uint32_t` (reduction modulo `2^32`). -/
def u32 (x : Int) : Nat := (x % 4294967296).toNat

/-- Conversion of an integer value to `int` (32-bit two's complement). -/
def i32 (x : Int) : Int := (x + 2147483648) % 4294967296 - 2147483648

/-- Wrap-around of `long long` arithmetic (64-bit two's complement). -/
def i64 (x : Int) : Int :=
  (x + 9223372036854775808) % 18446744073709551616 - 9223372036854775808

/-- Byte reversal of a 32-bit word: `htonl` on a little-endian host. -/
def htonl (x : Nat) : Nat :=
  (x % 256) * 16777216 + (x / 256 % 256) * 65536 + (x / 65536 % 256) * 256
    + (x / 16777216 % 256)

/-- Byte reversal of a 32-bit word: `ntohl` on a little-endian host. -/
def ntohl (x : Nat) : Nat :=
  (x % 256) * 16777216 + (x / 256 % 256) * 65536 + (x / 65536 % 256) * 256
    + (x / 16777216 % 256)

/-- The four bytes a `uint32_t` occupies in memory (lowest byte first). -/
def mem32 (x : Nat) : List Byte :=
  [byte x, byte (x / 256), byte (x / 65536), byte (x / 16777216)]

/-- The eight bytes a `uint64_t` occupies in memory (lowest byte first). -/
def mem64 (x : Nat) : List Byte :=
  mem32 (x % 4294967296) ++ mem32 (x / 4294967296)

/-- The `uint32_t` read from the four bytes at offset `off` of a buffer
(`reinterpret_cast<uint32_t*>`); callers check the bounds. -/
def load32 (buf : List Byte) (off : Nat) : Nat :=
  (buf.getD off 0).val + 256 * (buf.getD (off + 1) 0).val
    + 65536 * (buf.getD (off + 2) 0).val + 16777216 * (buf.getD (off + 3) 0).val

/-- What `vector<char>::resize(len)` leaves in the buffer: the old bytes that
fit, then zero bytes. -/
def resize (old : List Byte) (len : Nat) : List Byte :=
  old.take len ++ List.replicate (len - old.length) 0

/-- The buffer after `recv` has stored `data` from its start: the received
bytes replace the first `data.length` bytes. -/
def overlay (data buf : List Byte) : List Byte :=
  data ++ buf.drop data.length

/-! ## Message type tags -/

def TLV_CONFIG : Nat := 1

def TLV_DATA : Nat := 2

def TLV_COMPUTE : Nat := 3

def TLV_STATUS : Nat := 4

def TLV_RESULT : Nat := 5

def TLV_ERROR : Nat := 255

/-! ## Sockets and the wire format -/

/-- A receiving socket: the segments successive `recv` calls deliver. -/
abbrev Sock := List (List Byte)

/-- The bytes a socket delivers before `recv` first returns `0`. -/
def delivered : Sock → List Byte
  | [] => []
  | seg :: rest => if seg.length = 0 then [] else seg ++ delivered rest

/-- The four bytes of a 32-bit word in network order (most significant byte
first), as the wire format prescribes for the type tag and the length. -/
def be32 (x : Nat) : List Byte :=
  [byte (x / 16777216), byte (x / 65536), byte (x / 256), byte x]

/-- The big-endian (network order) value of the four bytes at offset `off`. -/
def be32_at (buf : List Byte) (off : Nat) : Nat :=
  16777216 * (buf.getD off 0).val + 65536 * (buf.getD (off + 1) 0).val
    + 256 * (buf.getD (off + 2) 0).val + (buf.getD (off + 3) 0).val

/-! ## Server side codec (`src/Server/Server.cpp`) -/

namespace Server

/-- Model of `send_all`: `wire` is what the peer has been sent so far.  The
loop runs while `sent < total_bytes`; `send` takes the whole remainder, so the
peer receives `buffer[0 .. total_bytes)`, and nothing for a count `≤ 0`. -/
def send_all (wire : List Byte) (buffer : List Byte) (total_bytes : Int) :
    Bool × List Byte :=
  if 0 < total_bytes then (true, wire ++ buffer.take total_bytes.toNat)
  else (true, wire)

/-- Model of the `recv_all` loop from the state `rec`, with the bytes stored so
far in `got`.  Result: success flag, bytes stored, socket left. -/
def recv_all_loop (total_bytes : Int) : Sock → Int → List Byte → Bool × List Byte × Sock
  | [], rec, got =>
    if rec < total_bytes then (false, got, []) else (true, got, [])
  | seg :: rest, rec, got =>
    if rec < total_bytes then
      if seg.length = 0 then (false, got, seg :: rest)
      else if (seg.length : Int) ≤ total_bytes - rec then
        recv_all_loop total_bytes rest (rec + seg.length) (got ++ seg)
      else
        (true, got ++ seg.take (total_bytes - rec).toNat,
          seg.drop (total_bytes - rec).toNat :: rest)
    else (true, got, seg :: rest)

/-- Model of `recv_all(sock, buffer, total_bytes)`. -/
def recv_all (sock : Sock) (total_bytes : Int) : Bool × List Byte × Sock :=
  recv_all_loop total_bytes sock 0 []

/-- Model of `send_message`: the header is the memory image of
`{htonl(type), htonl((uint32_t)payload.size())}`; the payload is sent with the
count `(int)payload.size()`. -/
def send_message (wire : List Byte) (type : Nat) (payload : List Byte) :
    Bool × List Byte :=
  let hdr := mem32 (htonl type) ++ mem32 (htonl (payload.length % 4294967296))
  let r := send_all wire hdr 8
  if !r.1 then (false, r.2)
  else if !payload.isEmpty && !(send_all r.2 payload (i32 payload.length)).1 then
    (false, (send_all r.2 payload (i32 payload.length)).2)
  else if !payload.isEmpty then (true, (send_all r.2 payload (i32 payload.length)).2)
  else (true, r.2)

/-- The outcome of `recv_message`: return value, the two out-parameters and
the socket left. -/
structure Recv where
  ok : Bool
  out_type : Nat
  out_payload : List Byte
  rest : Sock
deriving DecidableEq, Repr

/-- Model of `recv_message(sock, out_type, out_payload)`; the arguments
`out_type`, `out_payload` are the values the out-parameters hold on entry.
The payload count is `len` converted to the `int` parameter of `recv_all`. -/
def recv_message (sock : Sock) (out_type : Nat) (out_payload : List Byte) : Recv :=
  let h := recv_all sock 8
  if !h.1 then ⟨false, out_type, out_payload, h.2.2⟩
  else
    let len := ntohl (load32 h.2.1 4)
    let buf := resize out_payload len
    if len = 0 then ⟨true, ntohl (load32 h.2.1 0), buf, h.2.2⟩
    else
      let p := recv_all h.2.2 (i32 len)
      ⟨p.1, ntohl (load32 h.2.1 0), overlay p.2.1 buf, p.2.2⟩

/-- Model of `swap_64` (server): both halves pass through `htonl`, the low
half ends up in the high 32 bits. -/
def swap_64 (v : Nat) : Nat :=
  htonl (v % 4294967296) * 4294967296 + htonl (v / 4294967296 % 4294967296)

/-! ### The kernel `place_secondary_diagonal` -/

/-- Read of `mat[idx]` for an `int` index expression. -/
def mat_read (mat : List Int) (idx : Int) : Option Int :=
  if 0 ≤ idx ∧ idx < 2147483648 then mat[idx.toNat]? else none

/-- Store `mat[idx] = v` for an `int` index expression. -/
def mat_write (mat : List Int) (idx : Int) (v : Int) : Option (List Int) :=
  if 0 ≤ idx ∧ idx < 2147483648 ∧ idx.toNat < mat.length then
    some (mat.set idx.toNat v)
  else none

/-- The inner loop `for (j; j < N; ++j) prod *= mat[i * N + j]` with `k`
iterations left, loop variable `j` and accumulator `prod` (a `long long`). -/
def row_loop (mat : List Int) (N i : Int) : Nat → Int → Int → Option Int
  | 0, _, prod => some prod
  | k + 1, j, prod =>
    match mat_read mat (i * N + j) with
    | none => none
    | some x => row_loop mat N i k (j + 1) (i64 (prod * x))

/-- The body of the `worker` lambda: the loop over rows with `k` iterations
left and loop variable `i`; each row stores `static_cast<int>(prod)`. -/
def worker_loop (N : Int) : Nat → Int → List Int → Option (List Int)
  | 0, _, mat => some mat
  | k + 1, i, mat =>
    match row_loop mat N i N.toNat 0 1 with
    | none => none
    | some prod =>
      match mat_write mat (i * N + (N - 1 - i)) (i32 prod) with
      | none => none
      | some mat1 => worker_loop N k (i + 1) mat1

/-- The `worker` lambda applied to `(start_row, end_row)`. -/
def worker (N : Int) (mat : List Int) (start_row end_row : Int) : Option (List Int) :=
  worker_loop N (end_row - start_row).toNat start_row mat

/-- The effective number of workers (first line of the kernel). -/
def workers (N thread_count : Int) : Int :=
  if 0 < thread_count ∧ thread_count ≤ N then thread_count else 1

/-- The `(start, end)` pairs handed to `threads.emplace_back`, in spawn order. -/
def blocks (N thread_count : Int) : List (Int × Int) :=
  (List.range (workers N thread_count).toNat).map fun (t : Nat) =>
    ((t : Int) * Int.tdiv N (workers N thread_count),
      if (t : Int) + 1 = workers N thread_count then N
      else (t : Int) * Int.tdiv N (workers N thread_count)
        + Int.tdiv N (workers N thread_count))

/-- The spawned blocks run one after the other in spawn order (the schedule in
which each thread finishes before the next is started), then all are joined. -/
def run_threads (N : Int) : List (Int × Int) → List Int → Option (List Int)
  | [], mat => some mat
  | b :: bs, mat =>
    match worker N mat b.1 b.2 with
    | none => none
    | some mat1 => run_threads N bs mat1

/-- Model of `place_secondary_diagonal(mat, N, thread_count)`. -/
def place_secondary_diagonal (mat : List Int) (N thread_count : Int) :
    Option (List Int) :=
  run_threads N (blocks N thread_count) mat

/-! ### The session loop `handle_client` -/

/-- The locals of `handle_client` that live across loop iterations.
`time_sec` is the bit pattern of the `double`. -/
structure Session where
  N : Int
  thread_count : Int
  matrix : List Int
  has_data : Bool
  computed : Bool
  time_sec : Nat
deriving DecidableEq, Repr

/-- The locals as initialised before the loop. -/
def Session.init : Session := ⟨0, 1, [], false, false, 0⟩

/-- What `vector<int>::resize(n)` leaves in the matrix. -/
def resize_matrix (old : List Int) (n : Nat) : List Int :=
  old.take n ++ List.replicate (n - old.length) 0

/-- The DATA loop `for (i; i < N * N; ++i) matrix[i] = ntohl(p[i])` with `k`
iterations left and loop variable `i`. -/
def data_loop (payload : List Byte) : Nat → Nat → List Int → List Int
  | 0, _, matrix => matrix
  | k + 1, i, matrix =>
    data_loop payload k (i + 1) (matrix.set i (i32 (ntohl (load32 payload (4 * i)))))

/-- The RESULT payload `[4B N][4B thread_count][8B time_sec]`. -/
def result_payload (s : Session) : List Byte :=
  mem32 (htonl (u32 s.N)) ++ mem32 (htonl (u32 s.thread_count))
    ++ mem64 (swap_64 s.time_sec)

/-- One iteration of the `handle_client` loop after `recv_message` returned
`(msg_type, payload)`: the `switch`.  `elapsed` is the bit pattern of the
duration the clock would measure around the kernel.  Result: the locals after
the iteration and the bytes sent to the client. -/
def handle_message (s : Session) (elapsed : Nat) (msg_type : Nat)
    (payload : List Byte) : Option (Session × List Byte) :=
  if msg_type = TLV_CONFIG then
    if payload.length < 8 then none
    else
      some ({ s with N := i32 (ntohl (load32 payload 0)),
                     thread_count := i32 (ntohl (load32 payload 4)) },
            (send_message [] TLV_CONFIG []).2)
  else if msg_type = TLV_DATA then
    if s.N * s.N < 2147483648 ∧ 4 * (s.N * s.N).toNat ≤ payload.length then
      some ({ s with matrix := data_loop payload (s.N * s.N).toNat 0
                                 (resize_matrix s.matrix (s.N * s.N).toNat),
                     has_data := true },
            (send_message [] TLV_DATA []).2)
    else none
  else if msg_type = TLV_COMPUTE then
    if s.has_data then
      match place_secondary_diagonal s.matrix s.N s.thread_count with
      | none => none
      | some m =>
        some ({ s with matrix := m, time_sec := elapsed, computed := true },
              (send_message [] TLV_COMPUTE []).2)
    else some (s, (send_message [] TLV_COMPUTE []).2)
  else if msg_type = TLV_STATUS then
    some (s, (send_message [] TLV_STATUS
      [if s.computed then 2 else if s.has_data then 1 else 0]).2)
  else if msg_type = TLV_RESULT then
    if s.computed then some (s, (send_message [] TLV_RESULT (result_payload s)).2)
    else some (s, (send_message [] TLV_ERROR []).2)
  else some (s, (send_message [] TLV_ERROR []).2)

/-- One received message together with the clock reading of its iteration. -/
structure Msg where
  msg_type : Nat
  payload : List Byte
  elapsed : Nat
deriving DecidableEq, Repr

/-- The `handle_client` loop over the messages successive `recv_message` calls
return; it ends when `recv_message` fails (the list is exhausted).  Result:
the final locals and the replies, one per message, in order. -/
def handle_client : Session → List Msg → Option (Session × List (List Byte))
  | s, [] => some (s, [])
  | s, m :: ms =>
    match handle_message s m.elapsed m.msg_type m.payload with
    | none => none
    | some (s1, reply) =>
      match handle_client s1 ms with
      | none => none
      | some (s2, replies) => some (s2, reply :: replies)

end Server

/-! ## Client side codec (`src/Client.cpp`) -/

namespace Client

/-- Model of the client `send_all`, which returns the count sent. -/
def send_all (wire : List Byte) (buffer : List Byte) (total_bytes : Int) :
    Int × List Byte :=
  if 0 < total_bytes then (total_bytes, wire ++ buffer.take total_bytes.toNat)
  else (0, wire)

/-- Model of the client `recv_all` loop, which returns `rec` on success and the
non-positive `recv` result otherwise. -/
def recv_all_loop (total_bytes : Int) : Sock → Int → List Byte → Int × List Byte × Sock
  | [], rec, got =>
    if rec < total_bytes then (0, got, []) else (rec, got, [])
  | seg :: rest, rec, got =>
    if rec < total_bytes then
      if seg.length = 0 then (0, got, seg :: rest)
      else if (seg.length : Int) ≤ total_bytes - rec then
        recv_all_loop total_bytes rest (rec + seg.length) (got ++ seg)
      else
        (total_bytes, got ++ seg.take (total_bytes - rec).toNat,
          seg.drop (total_bytes - rec).toNat :: rest)
    else (rec, got, seg :: rest)

/-- Model of the client `recv_all(sock, buffer, total_bytes)`. -/
def recv_all (sock : Sock) (total_bytes : Int) : Int × List Byte × Sock :=
  recv_all_loop total_bytes sock 0 []

/-- Model of `send_tlv`. -/
def send_tlv (wire : List Byte) (type : Nat) (payload : List Byte) :
    Bool × List Byte :=
  let hdr := mem32 (htonl type) ++ mem32 (htonl (payload.length % 4294967296))
  let r := send_all wire hdr 8
  if r.1 ≠ 8 then (false, r.2)
  else if !payload.isEmpty then
    let q := send_all r.2 payload (i32 payload.length)
    if q.1 ≠ i32 payload.length then (false, q.2) else (true, q.2)
  else (true, r.2)

/-- The outcome of `recv_tlv`: return value, the two out-parameters and the
socket left. -/
structure Recv where
  ok : Bool
  out_type : Nat
  out_payload : List Byte
  rest : Sock
deriving DecidableEq, Repr

/-- Model of `recv_tlv(sock, out_type, out_payload)`. -/
def recv_tlv (sock : Sock) (out_type : Nat) (out_payload : List Byte) : Recv :=
  let h := recv_all sock 8
  if h.1 ≠ 8 then ⟨false, out_type, out_payload, h.2.2⟩
  else
    let len := ntohl (load32 h.2.1 4)
    let buf := resize out_payload len
    if 0 < len then
      let p := recv_all h.2.2 (i32 len)
      if p.1 ≠ i32 len then ⟨false, ntohl (load32 h.2.1 0), overlay p.2.1 buf, p.2.2⟩
      else ⟨true, ntohl (load32 h.2.1 0), overlay p.2.1 buf, p.2.2⟩
    else ⟨true, ntohl (load32 h.2.1 0), buf, h.2.2⟩

/-- Model of `swap_64` (client). -/
def swap_64 (v : Nat) : Nat :=
  ntohl (v % 4294967296) * 4294967296 + ntohl (v / 4294967296 % 4294967296)

/-- The 8-byte CONFIG payload `cfg` built in `main`
(`pcfg[0] = htonl(matrix_size); pcfg[1] = htonl(thread_count)`). -/
def config_payload (matrix_size thread_count : Int) : List Byte :=
  mem32 (htonl (u32 matrix_size)) ++ mem32 (htonl (u32 thread_count))

/-- The exit test of the STATUS poll loop in `main`. -/
def poll_done (st_type : Nat) (st_payload : List Byte) : Bool :=
  st_type = TLV_STATUS && !st_payload.isEmpty && st_payload.head? = some 2

/-- The test guarding the RESULT decoding in `main`. -/
def result_ok (ok : Bool) (res_type : Nat) (res_payload : List Byte) : Bool :=
  ok && res_type = TLV_RESULT && 16 ≤ res_payload.length

/-- The fields `server_n`, `server_threads` decoded from a RESULT payload. -/
def result_fields (res_payload : List Byte) : Int × Int :=
  (i32 (ntohl (load32 res_payload 0)), i32 (ntohl (load32 res_payload 4)))

end Client


/-! ## Specification-level notions used in the statements -/

/-- Row `i` of a row-major `N × N` matrix: the `N` entries from `i * N`. -/
def row (m : List Int) (N i : Nat) : List Int := (m.drop (i * N)).take N

/-- The product of a list of entries accumulated in a 64-bit `long long`
starting from `1` (what the spec calls the widened accumulator). -/
def prod64 (xs : List Int) : Int := xs.foldl (fun prod x => i64 (prod * x)) 1

/-- A list of `(start, end)` row blocks is contiguous from `s` to `e`: the
first block starts at `s`, every block ends where the next one starts, no
block has `end < start`, and the last block ends at `e`. -/
def chained : Int → List (Int × Int) → Int → Prop
  | s, [], e => s = e
  | s, b :: bs, e => b.1 = s ∧ b.1 ≤ b.2 ∧ chained b.2 bs e

/-- Some DATA message occurs in a message history. -/
def sawData : List Server.Msg → Bool
  | [] => false
  | m :: ms => decide (m.msg_type = TLV_DATA) || sawData ms

/-- Some COMPUTE message of a history was handled while data was loaded;
`loaded` tells whether data is loaded before the history starts. -/
def didCompute : Bool → List Server.Msg → Bool
  | _, [] => false
  | loaded, m :: ms =>
    (decide (m.msg_type = TLV_COMPUTE) && loaded)
      || didCompute (loaded || decide (m.msg_type = TLV_DATA)) ms

/-- The session states reachable from the initial locals through messages none
of which is a COMPUTE handled while data was loaded. -/
inductive ReachableNoCompute : Server.Session → Prop
  | init : ReachableNoCompute Server.Session.init
  | step (s s1 : Server.Session) (elapsed msg_type : Nat) (payload out : List Byte) :
      ReachableNoCompute s →
      ¬ (msg_type = TLV_COMPUTE ∧ s.has_data = true) →
      Server.handle_message s elapsed msg_type payload = some (s1, out) →
      ReachableNoCompute s1

/-- The plain big-endian encoding of a 64-bit word: its eight bytes, most
significant first. -/
def be64 (x : Nat) : List Byte := be32 (x / 4294967296) ++ be32 x

/-- The product of a list of entries accumulated in a wrapping 32-bit `int`
starting from `1`. -/
def prod32 (xs : List Int) : Int := xs.foldl (fun prod x => i32 (prod * x)) 1

/-- The rows of a list processed one after another in the given order, each by
one run of the `worker` lambda on the one-row block `[r, r + 1)`. -/
def process_rows (N : Int) : List Nat → List Int → Option (List Int)
  | [], mat => some mat
  | r :: rs, mat =>
    match Server.worker N mat r (r + 1) with
    | none => none
    | some mat1 => process_rows N rs mat1

/-! ## The client run (`main` of `src/Client.cpp`, once connected) -/

/-- The `uint64_t` read from the eight bytes at offset `off` of a buffer
(`reinterpret_cast<uint64_t*>`, lowest byte first). -/
def load64 (buf : List Byte) (off : Nat) : Nat :=
  load32 buf off + 4294967296 * load32 buf (off + 4)

/-- The bit pattern `raw` the client obtains from a RESULT payload in `main`:
`swap_64` of the `uint64_t` read at offset 8. -/
def Client.result_time (res_payload : List Byte) : Nat :=
  Client.swap_64 (load64 res_payload 8)

/-- The DATA payload `data` built in `main`: entry `i` of the matrix is stored
as `pdata[i] = htonl(matrix[i])`, four bytes per entry, in order. -/
def Client.data_payload : List Int → List Byte
  | [] => []
  | v :: vs => mem32 (htonl (u32 v)) ++ Client.data_payload vs

namespace Client

/-- How a run of `main` ends: still inside the STATUS loop (the loop has no
bound), the message `Failed to receive RESULT`, or the decoded RESULT fields
(`server_n`, `server_threads` and the bit pattern of `server_time`). -/
inductive Outcome where
  | polling
  | failed
  | result (server_n server_threads : Int) (raw : Nat)
deriving DecidableEq, Repr

/-- The connected socket as `main` uses it: what is still to be received and
every byte written so far. -/
structure Conn where
  sock : Sock
  wire : List Byte
deriving DecidableEq, Repr

/-- Model of the lambda `do_ack`: `send_tlv`, then `recv_tlv` into fresh
locals; both return values are dropped. -/
def do_ack (c : Conn) (cmd : Nat) (payload : List Byte) : Conn :=
  ⟨(recv_tlv c.sock 0 []).rest, (send_tlv c.wire cmd payload).2⟩

/-- Model of the loop `while (true)` of step 4 with `k` iterations allowed:
send STATUS, `recv_tlv` into fresh locals (return value dropped), leave the
loop when the test succeeds.  The flag tells whether the loop was left.  An
unassigned `st_type` is taken as `0`; the payload is then empty and the test
fails whatever the value. -/
def poll_loop : Nat → Conn → Bool × Conn
  | 0, c => (false, c)
  | k + 1, c =>
    let wire := (send_tlv c.wire TLV_STATUS []).2
    let r := recv_tlv c.sock 0 []
    if poll_done r.out_type r.out_payload then (true, ⟨r.rest, wire⟩)
    else poll_loop k ⟨r.rest, wire⟩

/-- Model of step 5 of `main`: send RESULT, decode the reply under the guard
`recv_tlv(...) && res_type == TLV_RESULT && res_payload.size() >= 16`. -/
def result_step (c : Conn) : Conn × Outcome :=
  let wire := (send_tlv c.wire TLV_RESULT []).2
  let r := recv_tlv c.sock 0 []
  if result_ok r.ok r.out_type r.out_payload then
    (⟨r.rest, wire⟩,
      Outcome.result (result_fields r.out_payload).1 (result_fields r.out_payload).2
        (result_time r.out_payload))
  else (⟨r.rest, wire⟩, Outcome.failed)

/-- Model of `main` from step 1 on.  The constants `matrix_size`,
`thread_count` and the generated matrix are parameters; `fuel` bounds the
iterations of the STATUS loop. -/
def main (fuel : Nat) (sock : Sock) (matrix_size thread_count : Int) (matrix : List Int) :
    Conn × Outcome :=
  let c1 := do_ack ⟨sock, []⟩ TLV_CONFIG (config_payload matrix_size thread_count)
  let c2 := do_ack c1 TLV_DATA (data_payload matrix)
  let c3 := do_ack c2 TLV_COMPUTE []
  let p := poll_loop fuel c3
  if p.1 then result_step p.2 else (p.2, Outcome.polling)

end Client

/-! ## Facts about memory images -/

theorem byte_val (x : Nat) : (byte x).val = x % 256 := rfl

theorem word_split (x : Nat) :
    x % 4294967296 = x % 256 + 256 * (x / 256 % 256) + 65536 * (x / 65536 % 256)
      + 16777216 * (x / 16777216 % 256) := by
  have h1 := Nat.div_div_eq_div_mul x 256 256
  have h2 := Nat.div_div_eq_div_mul x 65536 256
  have h3 := Nat.div_div_eq_div_mul x 16777216 256
  norm_num at h1 h2 h3
  omega

theorem ntohl_of_bytes (A B C D : Nat) (hA : A < 256) (hB : B < 256) (hC : C < 256)
    (hD : D < 256) :
    ntohl (A + 256 * B + 65536 * C + 16777216 * D)
      = A * 16777216 + B * 65536 + C * 256 + D := by
  unfold ntohl
  omega

theorem mem32_of_bytes (A B C D : Nat) (hB : B < 256) (hC : C < 256) (hD : D < 256) :
    mem32 (A * 16777216 + B * 65536 + C * 256 + D) = [byte D, byte C, byte B, byte A] := by
  simp only [mem32, byte, List.cons.injEq, Fin.mk.injEq, and_true]
  refine ⟨?_, ?_, ?_, ?_⟩ <;> omega

theorem mem32_htonl (x : Nat) : mem32 (htonl x) = be32 x := by
  have h := mem32_of_bytes (x % 256) (x / 256 % 256) (x / 65536 % 256) (x / 16777216 % 256)
    (Nat.mod_lt _ (by decide)) (Nat.mod_lt _ (by decide)) (Nat.mod_lt _ (by decide))
  unfold htonl
  rw [h]
  simp only [be32, byte, List.cons.injEq, Fin.mk.injEq, and_true, Nat.mod_mod, and_self]

theorem be32_length (x : Nat) : (be32 x).length = 4 := rfl

theorem mem32_length (x : Nat) : (mem32 x).length = 4 := rfl

theorem ntohl_load32_be32_0 (a : Nat) (l : List Byte) :
    ntohl (load32 (be32 a ++ l) 0) = a % 4294967296 := by
  simp only [load32, be32, byte, List.cons_append, List.nil_append, List.getD_cons_zero,
    List.getD_cons_succ]
  rw [ntohl_of_bytes _ _ _ _ (Nat.mod_lt _ (by decide)) (Nat.mod_lt _ (by decide))
    (Nat.mod_lt _ (by decide)) (Nat.mod_lt _ (by decide)), word_split a]
  omega

theorem ntohl_load32_be32_4 (a b : Nat) (l : List Byte) :
    ntohl (load32 (be32 a ++ (be32 b ++ l)) 4) = b % 4294967296 := by
  simp only [load32, be32, byte, List.cons_append, List.nil_append, List.getD_cons_zero,
    List.getD_cons_succ]
  rw [ntohl_of_bytes _ _ _ _ (Nat.mod_lt _ (by decide)) (Nat.mod_lt _ (by decide))
    (Nat.mod_lt _ (by decide)) (Nat.mod_lt _ (by decide)), word_split b]
  omega


/-! ## Facts about `recv_all` -/

theorem delivered_cons_ne (seg : List Byte) (rest : Sock) (h : ¬ seg.length = 0) :
    delivered (seg :: rest) = seg ++ delivered rest := by
  simp [delivered, h]

theorem Server.recv_all_loop_ok (T : Int) :
    ∀ (sock : Sock) (r : Int) (got : List Byte),
      (T - r).toNat ≤ (delivered sock).length →
      ∃ rest, Server.recv_all_loop T sock r got
          = (true, got ++ (delivered sock).take (T - r).toNat, rest)
        ∧ delivered rest = (delivered sock).drop (T - r).toNat := by
  intro sock
  induction sock with
  | nil =>
    intro r got h
    have hk : (T - r).toNat = 0 := by simpa [delivered] using h
    have hr : ¬ r < T := by omega
    exact ⟨[], by simp [Server.recv_all_loop, hr, hk], by simp [delivered]⟩
  | cons seg rest ih =>
    intro r got h
    by_cases hr : r < T
    · by_cases h0 : seg.length = 0
      · exfalso
        have : delivered (seg :: rest) = [] := by simp [delivered, h0]
        rw [this] at h
        simp at h
        omega
      · rw [delivered_cons_ne seg rest h0] at h ⊢
        by_cases hle : (seg.length : Int) ≤ T - r
        · have hk : (T - (r + seg.length)).toNat = (T - r).toNat - seg.length := by omega
          have hle2 : seg.length ≤ (T - r).toNat := by omega
          obtain ⟨rest1, e1, e2⟩ := ih (r + seg.length) (got ++ seg) (by
            rw [hk]; simp at h; omega)
          refine ⟨rest1, ?_, ?_⟩
          · simp only [Server.recv_all_loop, hr, h0, hle, if_true, if_false]
            rw [e1, hk, List.take_append_eq_append_take, List.take_of_length_le hle2,
              List.append_assoc]
          · rw [e2, hk, List.drop_append_eq_append_drop, List.drop_of_length_le hle2,
              List.nil_append]
        · have hlt : (T - r).toNat < seg.length := by omega
          refine ⟨seg.drop (T - r).toNat :: rest, ?_, ?_⟩
          · simp only [Server.recv_all_loop, hr, h0, hle, if_true, if_false]
            rw [List.take_append_of_le_length (Nat.le_of_lt hlt)]
          · have hne : ¬ (seg.drop (T - r).toNat).length = 0 := by
              simp only [List.length_drop]; omega
            rw [delivered_cons_ne _ _ hne, List.drop_append_of_le_length (Nat.le_of_lt hlt)]
    · have hk : (T - r).toNat = 0 := by omega
      exact ⟨seg :: rest, by simp [Server.recv_all_loop, hr, hk], by simp [hk]⟩

theorem Server.recv_all_loop_short (T : Int) :
    ∀ (sock : Sock) (r : Int) (got : List Byte),
      (delivered sock).length < (T - r).toNat →
      ∃ rest, Server.recv_all_loop T sock r got = (false, got ++ delivered sock, rest)
        ∧ delivered rest = [] := by
  intro sock
  induction sock with
  | nil =>
    intro r got h
    have hr : r < T := by omega
    exact ⟨[], by simp [Server.recv_all_loop, hr, delivered], by simp [delivered]⟩
  | cons seg rest ih =>
    intro r got h
    have hr : r < T := by omega
    by_cases h0 : seg.length = 0
    · have hd : delivered (seg :: rest) = [] := by simp [delivered, h0]
      exact ⟨seg :: rest, by simp [Server.recv_all_loop, hr, h0, hd], hd⟩
    · rw [delivered_cons_ne seg rest h0] at h ⊢
      simp only [List.length_append] at h
      have hle : (seg.length : Int) ≤ T - r := by omega
      obtain ⟨rest1, e1, e2⟩ := ih (r + seg.length) (got ++ seg) (by omega)
      refine ⟨rest1, ?_, e2⟩
      simp only [Server.recv_all_loop, hr, h0, hle, if_true, if_false]
      rw [e1, List.append_assoc]

theorem Client.recv_all_loop_eq (T : Int) :
    ∀ (sock : Sock) (r : Int) (got : List Byte),
      Client.recv_all_loop T sock r got
        = (if (Server.recv_all_loop T sock r got).1 then (if r < T then T else r) else 0,
            (Server.recv_all_loop T sock r got).2) := by
  intro sock
  induction sock with
  | nil =>
    intro r got
    by_cases hr : r < T <;> simp [Client.recv_all_loop, Server.recv_all_loop, hr]
  | cons seg rest ih =>
    intro r got
    by_cases hr : r < T
    · by_cases h0 : seg.length = 0
      · simp [Client.recv_all_loop, Server.recv_all_loop, hr, h0]
      · by_cases hle : (seg.length : Int) ≤ T - r
        · simp only [Client.recv_all_loop, Server.recv_all_loop, hr, h0, hle, if_true, if_false]
          rw [ih]
          by_cases h2 : r + (seg.length : Int) < T
          · simp [h2]
          · have : r + (seg.length : Int) = T := by omega
            simp [this]
        · simp [Client.recv_all_loop, Server.recv_all_loop, hr, h0, hle]
    · simp [Client.recv_all_loop, Server.recv_all_loop, hr]


theorem i32_of_lt (n : Nat) (h : n < 2147483648) : i32 (n : Int) = n := by
  unfold i32
  omega

theorem resize_length (old : List Byte) (n : Nat) : (resize old n).length = n := by
  simp only [resize, List.length_append, List.length_take, List.length_replicate]
  omega

theorem overlay_full (data old : List Byte) : overlay data (resize old data.length) = data := by
  unfold overlay
  rw [List.drop_of_length_le (by rw [resize_length]), List.append_nil]

theorem take8_header (t n : Nat) (l : List Byte) :
    (be32 t ++ (be32 n ++ l)).take 8 = be32 t ++ (be32 n ++ []) := by
  simp [be32]

theorem drop8_header (t n : Nat) (l : List Byte) :
    (be32 t ++ (be32 n ++ l)).drop 8 = l := by
  simp [be32]

/-! ## Facts about the encoders -/

theorem Server.send_message_wire (wire : List Byte) (t : Nat) (p : List Byte)
    (hp : p.length < 2147483648) :
    Server.send_message wire t p = (true, wire ++ (be32 t ++ (be32 p.length ++ p))) := by
  have hmod : p.length % 4294967296 = p.length := Nat.mod_eq_of_lt (by omega)
  have hhdr : (mem32 (htonl t) ++ mem32 (htonl (p.length % 4294967296))).take (8 : Int).toNat
      = be32 t ++ be32 p.length := by
    rw [mem32_htonl, mem32_htonl, hmod]; rfl
  cases p with
  | nil =>
    simp only [Server.send_message, Server.send_all, hhdr]
    simp
  | cons b bs =>
    have hi : i32 ((b :: bs).length : Int) = ((b :: bs).length : Nat) := i32_of_lt _ hp
    have hpos : (0 : Int) < ((b :: bs).length : Nat) := by simp
    simp only [Server.send_message, Server.send_all, hhdr, hi, hpos]
    simp

theorem Client.send_tlv_wire (wire : List Byte) (t : Nat) (p : List Byte)
    (hp : p.length < 2147483648) :
    Client.send_tlv wire t p = (true, wire ++ (be32 t ++ (be32 p.length ++ p))) := by
  have hmod : p.length % 4294967296 = p.length := Nat.mod_eq_of_lt (by omega)
  have hhdr : (mem32 (htonl t) ++ mem32 (htonl (p.length % 4294967296))).take (8 : Int).toNat
      = be32 t ++ be32 p.length := by
    rw [mem32_htonl, mem32_htonl, hmod]; rfl
  cases p with
  | nil =>
    simp only [Client.send_tlv, Client.send_all, hhdr]
    simp
  | cons b bs =>
    have hi : i32 ((b :: bs).length : Int) = ((b :: bs).length : Nat) := i32_of_lt _ hp
    have hpos : (0 : Int) < ((b :: bs).length : Nat) := by simp
    simp only [Client.send_tlv, Client.send_all, hhdr, hi, hpos]
    simp

/-! ## Facts about the decoders -/

theorem Server.recv_message_frame (sock : Sock) (t : Nat) (p tail : List Byte)
    (ty0 : Nat) (pl0 : List Byte) (ht : t < 4294967296) (hp : p.length < 2147483648)
    (hd : delivered sock = be32 t ++ (be32 p.length ++ (p ++ tail))) :
    ∃ rest, Server.recv_message sock ty0 pl0 = ⟨true, t, p, rest⟩ ∧ delivered rest = tail := by
  obtain ⟨r1, e1, d1⟩ := Server.recv_all_loop_ok 8 sock 0 [] (by
    rw [hd]; simp [be32])
  have e8 : ((8 : Int) - 0).toNat = 8 := rfl
  rw [e8, hd, take8_header, List.nil_append] at e1
  rw [e8, hd, drop8_header] at d1
  have hlen : ntohl (load32 (be32 t ++ (be32 p.length ++ [])) 4) = p.length := by
    rw [ntohl_load32_be32_4]; exact Nat.mod_eq_of_lt (by omega)
  have hty : ntohl (load32 (be32 t ++ (be32 p.length ++ [])) 0) = t := by
    rw [ntohl_load32_be32_0]; exact Nat.mod_eq_of_lt ht
  by_cases hz : p.length = 0
  · have hp0 : p = [] := List.length_eq_zero.mp hz
    subst hp0
    refine ⟨r1, ?_, by simpa using d1⟩
    simp only [Server.recv_message, Server.recv_all, e1, hlen, hty]
    simp [resize]
  · obtain ⟨r2, e2, d2⟩ := Server.recv_all_loop_ok (p.length : Int) r1 0 [] (by
      rw [d1]; simp)
    have ek : ((p.length : Int) - 0).toNat = p.length := by simp
    rw [ek, d1, List.take_left, List.nil_append] at e2
    rw [ek, d1, List.drop_left] at d2
    refine ⟨r2, ?_, d2⟩
    simp only [Server.recv_message, Server.recv_all, e1, hlen, hty, hz, i32_of_lt _ hp, e2,
      overlay_full]
    simp

theorem Client.recv_tlv_frame (sock : Sock) (t : Nat) (p tail : List Byte)
    (ty0 : Nat) (pl0 : List Byte) (ht : t < 4294967296) (hp : p.length < 2147483648)
    (hd : delivered sock = be32 t ++ (be32 p.length ++ (p ++ tail))) :
    ∃ rest, Client.recv_tlv sock ty0 pl0 = ⟨true, t, p, rest⟩ ∧ delivered rest = tail := by
  obtain ⟨r1, e1, d1⟩ := Server.recv_all_loop_ok 8 sock 0 [] (by
    rw [hd]; simp [be32])
  have e8 : ((8 : Int) - 0).toNat = 8 := rfl
  rw [e8, hd, take8_header, List.nil_append] at e1
  rw [e8, hd, drop8_header] at d1
  have hlen : ntohl (load32 (be32 t ++ (be32 p.length ++ [])) 4) = p.length := by
    rw [ntohl_load32_be32_4]; exact Nat.mod_eq_of_lt (by omega)
  have hty : ntohl (load32 (be32 t ++ (be32 p.length ++ [])) 0) = t := by
    rw [ntohl_load32_be32_0]; exact Nat.mod_eq_of_lt ht
  by_cases hz : p.length = 0
  · have hp0 : p = [] := List.length_eq_zero.mp hz
    subst hp0
    refine ⟨r1, ?_, by simpa using d1⟩
    simp only [Client.recv_tlv, Client.recv_all, Client.recv_all_loop_eq, e1, hlen, hty]
    simp [resize]
  · obtain ⟨r2, e2, d2⟩ := Server.recv_all_loop_ok (p.length : Int) r1 0 [] (by
      rw [d1]; simp)
    have ek : ((p.length : Int) - 0).toNat = p.length := by simp
    rw [ek, d1, List.take_left, List.nil_append] at e2
    rw [ek, d1, List.drop_left] at d2
    refine ⟨r2, ?_, d2⟩
    have hpos : 0 < p.length := Nat.pos_of_ne_zero hz
    have hposi : (0 : Int) < (p.length : Int) := by omega
    simp only [Client.recv_tlv, Client.recv_all, Client.recv_all_loop_eq, e1, hlen, hty,
      i32_of_lt _ hp, e2, overlay_full, hpos, hposi]
    simp


theorem Server.recv_all_loop_done (T : Int) (sock : Sock) (r : Int) (got : List Byte)
    (h : ¬ r < T) : Server.recv_all_loop T sock r got = (true, got, sock) := by
  cases sock <;> simp [Server.recv_all_loop, h]

theorem i32_of_ge (n : Nat) (h1 : 2147483648 ≤ n) (h2 : n < 4294967296) :
    i32 (n : Int) = (n : Int) - 4294967296 := by
  unfold i32
  omega

theorem overlay_nil (buf : List Byte) : overlay [] buf = buf := rfl

/-- A header that declares `2^31` bytes or more: the server decoder reads no
payload byte and reports success with the resized buffer. -/
theorem Server.recv_message_huge (sock : Sock) (t L : Nat) (tail : List Byte)
    (ty0 : Nat) (pl0 : List Byte) (ht : t < 4294967296) (h1 : 2147483648 ≤ L)
    (h2 : L < 4294967296) (hd : delivered sock = be32 t ++ (be32 L ++ tail)) :
    ∃ rest, Server.recv_message sock ty0 pl0 = ⟨true, t, resize pl0 L, rest⟩
      ∧ delivered rest = tail := by
  obtain ⟨r1, e1, d1⟩ := Server.recv_all_loop_ok 8 sock 0 [] (by
    rw [hd]; simp [be32])
  have e8 : ((8 : Int) - 0).toNat = 8 := rfl
  rw [e8, hd, take8_header, List.nil_append] at e1
  rw [e8, hd, drop8_header] at d1
  have hlen : ntohl (load32 (be32 t ++ (be32 L ++ [])) 4) = L := by
    rw [ntohl_load32_be32_4]; exact Nat.mod_eq_of_lt h2
  have hty : ntohl (load32 (be32 t ++ (be32 L ++ [])) 0) = t := by
    rw [ntohl_load32_be32_0]; exact Nat.mod_eq_of_lt ht
  have hz : ¬ L = 0 := by omega
  have hneg : ¬ (0 : Int) < i32 (L : Int) := by rw [i32_of_ge L h1 h2]; omega
  refine ⟨r1, ?_, d1⟩
  simp only [Server.recv_message, Server.recv_all, e1, hlen, hty, hz,
    Server.recv_all_loop_done _ r1 0 [] hneg, overlay_nil]
  simp

/-- A header that declares `2^31` bytes or more: the client decoder fails. -/
theorem Client.recv_tlv_huge (sock : Sock) (t L : Nat) (tail : List Byte)
    (ty0 : Nat) (pl0 : List Byte) (h1 : 2147483648 ≤ L)
    (h2 : L < 4294967296) (hd : delivered sock = be32 t ++ (be32 L ++ tail)) :
    (Client.recv_tlv sock ty0 pl0).ok = false := by
  obtain ⟨r1, e1, d1⟩ := Server.recv_all_loop_ok 8 sock 0 [] (by
    rw [hd]; simp [be32])
  have e8 : ((8 : Int) - 0).toNat = 8 := rfl
  rw [e8, hd, take8_header, List.nil_append] at e1
  have hlen : ntohl (load32 (be32 t ++ (be32 L ++ [])) 4) = L := by
    rw [ntohl_load32_be32_4]; exact Nat.mod_eq_of_lt h2
  have hpos : 0 < L := by omega
  have hneg : ¬ (0 : Int) < i32 (L : Int) := by rw [i32_of_ge L h1 h2]; omega
  have hne : ¬ (0 : Int) = i32 (L : Int) := by rw [i32_of_ge L h1 h2]; omega
  have e3 := Server.recv_all_loop_done (i32 (L : Int)) r1 0 [] hneg
  simp only [Client.recv_tlv, Client.recv_all, Client.recv_all_loop_eq, e1, hlen]
  simp only [e3]
  simp [hpos, hneg, hne]

/-- A payload of `2^31` bytes or more (below `2^32`): `send_message` sends the
header and none of the payload. -/
theorem Server.send_message_huge (wire : List Byte) (t : Nat) (p : List Byte)
    (h1 : 2147483648 ≤ p.length) (h2 : p.length < 4294967296) :
    Server.send_message wire t p = (true, wire ++ (be32 t ++ be32 p.length)) := by
  have hmod : p.length % 4294967296 = p.length := Nat.mod_eq_of_lt h2
  have hhdr : (mem32 (htonl t) ++ mem32 (htonl (p.length % 4294967296))).take (8 : Int).toNat
      = be32 t ++ be32 p.length := by
    rw [mem32_htonl, mem32_htonl, hmod]; rfl
  have hneg : ¬ (0 : Int) < i32 (p.length : Int) := by rw [i32_of_ge _ h1 h2]; omega
  cases p with
  | nil => simp at h1
  | cons b bs =>
    simp only [Server.send_message, Server.send_all, hhdr, hneg]
    simp

theorem Client.send_tlv_huge (wire : List Byte) (t : Nat) (p : List Byte)
    (h1 : 2147483648 ≤ p.length) (h2 : p.length < 4294967296) :
    (Client.send_tlv wire t p).2 = wire ++ (be32 t ++ be32 p.length) := by
  have hmod : p.length % 4294967296 = p.length := Nat.mod_eq_of_lt h2
  have hhdr : (mem32 (htonl t) ++ mem32 (htonl (p.length % 4294967296))).take (8 : Int).toNat
      = be32 t ++ be32 p.length := by
    rw [mem32_htonl, mem32_htonl, hmod]; rfl
  have hneg : ¬ (0 : Int) < i32 (p.length : Int) := by rw [i32_of_ge _ h1 h2]; omega
  cases p with
  | nil => simp at h1
  | cons b bs =>
    simp only [Client.send_tlv, Client.send_all, hhdr, hneg]
    simp only [List.isEmpty_cons, Bool.not_false, if_true, Int.reduceLT, Int.reduceNeg,
      ne_eq, not_true_eq_false, if_false]
    split <;> rfl


theorem delivered_single (x : List Byte) : delivered [x] = x := by
  cases x <;> simp [delivered]

theorem resize_nil_ne_ones (n : Nat) (h : 0 < n) :
    resize [] n ≠ List.replicate n (1 : Byte) := by
  intro e
  have e0 := congrArg (fun l => l[0]?) e
  simp [resize, List.getElem?_replicate, h] at e0

theorem Server.recv_message_short (sock : Sock) (ty0 : Nat) (pl0 : List Byte)
    (h : (delivered sock).length < 8) :
    (Server.recv_message sock ty0 pl0).ok = false
      ∧ delivered (Server.recv_message sock ty0 pl0).rest = [] := by
  obtain ⟨r1, e1, d1⟩ := Server.recv_all_loop_short 8 sock 0 [] (by simpa using h)
  simp only [Server.recv_message, Server.recv_all, e1]
  simpa using d1

theorem Client.recv_tlv_short (sock : Sock) (ty0 : Nat) (pl0 : List Byte)
    (h : (delivered sock).length < 8) :
    (Client.recv_tlv sock ty0 pl0).ok = false
      ∧ delivered (Client.recv_tlv sock ty0 pl0).rest = [] := by
  obtain ⟨r1, e1, d1⟩ := Server.recv_all_loop_short 8 sock 0 [] (by simpa using h)
  simp only [Client.recv_tlv, Client.recv_all, Client.recv_all_loop_eq, e1]
  simpa using d1

theorem Server.recv_message_cut (sock : Sock) (ty0 : Nat) (pl0 : List Byte) (t L : Nat)
    (part : List Byte) (hL : L < 2147483648) (hcut : part.length < L)
    (hd : delivered sock = be32 t ++ (be32 L ++ part)) :
    (Server.recv_message sock ty0 pl0).ok = false
      ∧ delivered (Server.recv_message sock ty0 pl0).rest = [] := by
  obtain ⟨r1, e1, d1⟩ := Server.recv_all_loop_ok 8 sock 0 [] (by
    rw [hd]; simp [be32])
  have e8 : ((8 : Int) - 0).toNat = 8 := rfl
  rw [e8, hd, take8_header, List.nil_append] at e1
  rw [e8, hd, drop8_header] at d1
  have hlen : ntohl (load32 (be32 t ++ (be32 L ++ [])) 4) = L := by
    rw [ntohl_load32_be32_4]; exact Nat.mod_eq_of_lt (by omega)
  have hz : ¬ L = 0 := by omega
  obtain ⟨r2, e2, d2⟩ := Server.recv_all_loop_short (L : Int) r1 0 [] (by
    rw [d1]; simpa using hcut)
  simp only [Server.recv_message, Server.recv_all, e1, hlen, hz, i32_of_lt _ hL, e2]
  simpa using d2

theorem Client.recv_tlv_cut (sock : Sock) (ty0 : Nat) (pl0 : List Byte) (t L : Nat)
    (part : List Byte) (hL : L < 2147483648) (hcut : part.length < L)
    (hd : delivered sock = be32 t ++ (be32 L ++ part)) :
    (Client.recv_tlv sock ty0 pl0).ok = false
      ∧ delivered (Client.recv_tlv sock ty0 pl0).rest = [] := by
  obtain ⟨r1, e1, d1⟩ := Server.recv_all_loop_ok 8 sock 0 [] (by
    rw [hd]; simp [be32])
  have e8 : ((8 : Int) - 0).toNat = 8 := rfl
  rw [e8, hd, take8_header, List.nil_append] at e1
  rw [e8, hd, drop8_header] at d1
  have hlen : ntohl (load32 (be32 t ++ (be32 L ++ [])) 4) = L := by
    rw [ntohl_load32_be32_4]; exact Nat.mod_eq_of_lt (by omega)
  have hpos : 0 < L := by omega
  have hne : ¬ (0 : Int) = (L : Int) := by omega
  obtain ⟨r2, e2, d2⟩ := Server.recv_all_loop_short (L : Int) r1 0 [] (by
    rw [d1]; simpa using hcut)
  simp only [Client.recv_tlv, Client.recv_all, Client.recv_all_loop_eq, e1, hlen,
    i32_of_lt _ hL, e2]
  simpa [hpos, hne] using d2

/-! ## Facts about the kernel -/

theorem cast_index (i N j : Nat) : ((i : Int) * (N : Int) + (j : Int)).toNat = i * N + j := by
  have : ((i : Int) * (N : Int) + (j : Int)) = ((i * N + j : Nat) : Int) := by push_cast; ring
  rw [this, Int.toNat_ofNat]

theorem Server.mat_read_nat (mat : List Int) (i N j : Nat) (h : i * N + j < 2147483648) :
    Server.mat_read mat ((i : Int) * (N : Int) + (j : Int)) = mat[i * N + j]? := by
  have h1 : (0 : Int) ≤ (i : Int) * (N : Int) + (j : Int) := by positivity
  have h2 : (i : Int) * (N : Int) + (j : Int) < 2147483648 := by
    have : ((i : Int) * (N : Int) + (j : Int)) = ((i * N + j : Nat) : Int) := by push_cast; ring
    rw [this]; exact_mod_cast h
  simp only [Server.mat_read, h1, h2, and_self, if_true, cast_index]

theorem Server.row_loop_step (mat : List Int) (N i : Int) (k : Nat) (j prod x : Int)
    (hr : Server.mat_read mat (i * N + j) = some x) :
    Server.row_loop mat N i (k + 1) j prod
      = Server.row_loop mat N i k (j + 1) (i64 (prod * x)) := by
  simp only [Server.row_loop, hr]

theorem Server.row_loop_eq (mat : List Int) (N i : Nat) :
    ∀ (k j : Nat) (prod : Int), i * N + j + k ≤ mat.length → i * N + j + k ≤ 2147483648 →
      Server.row_loop mat N i k j prod
        = some (((mat.drop (i * N + j)).take k).foldl (fun prod x => i64 (prod * x)) prod) := by
  intro k
  induction k with
  | zero => intro j prod _ _; simp [Server.row_loop]
  | succ k ih =>
    intro j prod h1 h2
    have hlt : i * N + j < mat.length := by omega
    have hd : mat.drop (i * N + j) = mat[i * N + j] :: mat.drop (i * N + j + 1) :=
      List.drop_eq_getElem_cons hlt
    have hr := Server.mat_read_nat mat i N j (by omega)
    rw [List.getElem?_eq_getElem hlt] at hr
    have ih1 := ih (j + 1) (i64 (prod * mat[i * N + j])) (by omega) (by omega)
    have hc : ((j : Int) + 1) = ((j + 1 : Nat) : Int) := by push_cast; rfl
    rw [Server.row_loop_step _ _ _ _ _ _ _ hr, hc, ih1, hd, List.take_succ_cons,
      List.foldl_cons]
    rfl

theorem Server.row_loop_row (mat : List Int) (N i : Nat) (h1 : i * N + N ≤ mat.length)
    (h2 : i * N + N ≤ 2147483648) :
    Server.row_loop mat N i (N : Int).toNat 0 1 = some (prod64 (row mat N i)) := by
  have e := Server.row_loop_eq mat N i N 0 1 (by omega) (by omega)
  simp only [Int.toNat_ofNat, prod64, row]
  simpa using e

theorem row_bound (N r : Nat) (h : r < N) : r * N + N ≤ N * N := by
  have := Nat.mul_le_mul_right N (show r + 1 ≤ N by omega)
  rw [Nat.succ_mul] at this
  exact this

theorem rows_apart (N r s : Nat) (h : r < s) : r * N + N ≤ s * N := by
  have := Nat.mul_le_mul_right N (show r + 1 ≤ s by omega)
  rw [Nat.succ_mul] at this
  exact this

theorem row_set_other (mat : List Int) (N r idx : Nat) (v : Int)
    (h : idx < r * N ∨ r * N + N ≤ idx) : row (mat.set idx v) N r = row mat N r := by
  unfold row
  apply List.ext_getElem?
  intro j
  by_cases hj : j < N
  · rw [List.getElem?_take_of_lt hj, List.getElem?_take_of_lt hj, List.getElem?_drop,
      List.getElem?_drop, List.getElem?_set_ne (by omega)]
  · rw [List.getElem?_eq_none (by simp; omega), List.getElem?_eq_none (by simp; omega)]

theorem cast_cell (i N : Nat) (h : i < N) :
    ((i : Int) * (N : Int) + ((N : Int) - 1 - (i : Int))) = ((i * N + (N - 1 - i) : Nat) : Int) := by
  have : ((N - 1 - i : Nat) : Int) = (N : Int) - 1 - (i : Int) := by omega
  push_cast
  rw [this]

theorem Server.mat_write_nat (mat : List Int) (i N : Nat) (v : Int) (h : i < N)
    (h1 : i * N + (N - 1 - i) < mat.length) (h2 : i * N + (N - 1 - i) < 2147483648) :
    Server.mat_write mat ((i : Int) * (N : Int) + ((N : Int) - 1 - (i : Int))) v
      = some (mat.set (i * N + (N - 1 - i)) v) := by
  rw [cast_cell i N h]
  have c1 : (0 : Int) ≤ ((i * N + (N - 1 - i) : Nat) : Int) := Int.ofNat_nonneg _
  have c2 : ((i * N + (N - 1 - i) : Nat) : Int) < 2147483648 := by exact_mod_cast h2
  simp only [Server.mat_write, c1, c2, Int.toNat_ofNat, h1, and_self, if_true]

theorem Server.worker_loop_step (N : Int) (k : Nat) (i : Int) (mat mat1 : List Int) (prod : Int)
    (hr : Server.row_loop mat N i N.toNat 0 1 = some prod)
    (hw : Server.mat_write mat (i * N + (N - 1 - i)) (i32 prod) = some mat1) :
    Server.worker_loop N (k + 1) i mat = Server.worker_loop N k (i + 1) mat1 := by
  simp only [Server.worker_loop, hr, hw]

theorem Server.worker_loop_spec (N : Nat) (hN : N * N < 2147483648) :
    ∀ (k i : Nat) (mat : List Int), mat.length = N * N → i + k ≤ N →
      ∃ mat1, Server.worker_loop N k i mat = some mat1 ∧ mat1.length = N * N
        ∧ (∀ r, i ≤ r → r < i + k →
            mat1[r * N + (N - 1 - r)]? = some (i32 (prod64 (row mat N r))))
        ∧ (∀ idx, (∀ r, i ≤ r → r < i + k → idx ≠ r * N + (N - 1 - r)) →
            mat1[idx]? = mat[idx]?) := by
  intro k
  induction k with
  | zero =>
    intro i mat hl _
    exact ⟨mat, rfl, hl, fun r h1 h2 => by omega, fun idx _ => rfl⟩
  | succ k ih =>
    intro i mat hl hik
    have hi : i < N := by omega
    have hb := row_bound N i hi
    have hrow := Server.row_loop_row mat N i (by omega) (by omega)
    have hwr := Server.mat_write_nat mat i N (i32 (prod64 (row mat N i))) hi (by omega) (by omega)
    obtain ⟨mat1, e1, l1, a1, b1⟩ := ih (i + 1)
      (mat.set (i * N + (N - 1 - i)) (i32 (prod64 (row mat N i))))
      (by rw [List.length_set]; exact hl) (by omega)
    have hc : ((i : Int) + 1) = ((i + 1 : Nat) : Int) := by push_cast; rfl
    refine ⟨mat1, ?_, l1, ?_, ?_⟩
    · rw [Server.worker_loop_step _ _ _ _ _ _ hrow hwr, hc, e1]
    · intro r h1 h2
      by_cases hri : r = i
      · subst hri
        rw [b1 _ (fun s hs1 hs2 => by
          have := rows_apart N r s (by omega)
          have := row_bound N s (by omega)
          omega)]
        rw [List.getElem?_set_self (by omega)]
      · rw [a1 r (by omega) (by omega), row_set_other]
        have := rows_apart N i r (by omega)
        omega
    · intro idx hidx
      rw [b1 idx (fun s hs1 hs2 => hidx s (by omega) (by omega))]
      rw [List.getElem?_set_ne]
      exact fun h => hidx i (Nat.le_refl _) (by omega) h.symm

theorem Server.worker_loop_add (N : Int) :
    ∀ (a b : Nat) (i : Int) (mat : List Int),
      Server.worker_loop N (a + b) i mat
        = (Server.worker_loop N a i mat).bind fun m1 => Server.worker_loop N b (i + a) m1 := by
  intro a
  induction a with
  | zero =>
    intro b i mat
    simp [Server.worker_loop]
  | succ a ih =>
    intro b i mat
    have e : a + 1 + b = (a + b) + 1 := by omega
    have hc : i + 1 + (a : Int) = i + ((a + 1 : Nat) : Int) := by push_cast; ring
    rw [e]
    cases hr : Server.row_loop mat N i N.toNat 0 1 with
    | none => simp [Server.worker_loop, hr]
    | some prod =>
      cases hw : Server.mat_write mat (i * N + (N - 1 - i)) (i32 prod) with
      | none => simp [Server.worker_loop, hr, hw]
      | some mat1 =>
        rw [Server.worker_loop_step N _ i mat mat1 prod hr hw,
          Server.worker_loop_step N _ i mat mat1 prod hr hw, ih, hc]

theorem chained_le : ∀ (bs : List (Int × Int)) (s e : Int), chained s bs e → s ≤ e := by
  intro bs
  induction bs with
  | nil => intro s e h; exact le_of_eq h
  | cons b bs ih =>
    intro s e h
    obtain ⟨h1, h2, h3⟩ := h
    have := ih _ _ h3
    omega

theorem Server.run_threads_chained (N : Int) :
    ∀ (bs : List (Int × Int)) (s e : Int) (mat : List Int), chained s bs e →
      Server.run_threads N bs mat = Server.worker_loop N (e - s).toNat s mat := by
  intro bs
  induction bs with
  | nil =>
    intro s e mat h
    have : s = e := h
    subst this
    simp [Server.run_threads, Server.worker_loop]
  | cons b bs ih =>
    intro s e mat h
    obtain ⟨h1, h2, h3⟩ := h
    have h4 := chained_le bs _ _ h3
    have hsum : (e - s).toNat = (b.2 - b.1).toNat + (e - b.2).toNat := by omega
    have hend : s + ((b.2 - b.1).toNat : Int) = b.2 := by omega
    rw [hsum, Server.worker_loop_add, hend]
    simp only [Server.run_threads, Server.worker, h1]
    rw [← h1]
    cases Server.worker_loop N (b.2 - b.1).toNat b.1 mat with
    | none => rfl
    | some m1 => exact ih _ _ m1 h3

theorem Server.workers_pos (N tc : Int) : 1 ≤ Server.workers N tc := by
  unfold Server.workers
  split <;> omega

theorem Server.workers_le (N tc : Int) (hN : 1 ≤ N) : Server.workers N tc ≤ N := by
  unfold Server.workers
  split <;> omega

theorem Server.blocks_chained_aux (N w q : Int) (hq : 0 ≤ q) (hwq : (w - 1) * q ≤ N) :
    ∀ (n t0 : Nat), (t0 : Int) + (n + 1 : Nat) = w →
      chained ((t0 : Int) * q)
        ((List.range' t0 (n + 1)).map fun (t : Nat) =>
          ((t : Int) * q, if (t : Int) + 1 = w then N else (t : Int) * q + q)) N := by
  intro n
  induction n with
  | zero =>
    intro t0 h
    have h1 : (t0 : Int) + 1 = w := by push_cast at h; omega
    have h2 : (t0 : Int) = w - 1 := by omega
    simp only [List.range', List.map, chained, h1, if_true, true_and, and_true]
    rw [h2]; exact hwq
  | succ n ih =>
    intro t0 h
    have h1 : ¬ (t0 : Int) + 1 = w := by push_cast at h; omega
    have ih1 := ih (t0 + 1) (by push_cast at h ⊢; omega)
    have e : ((t0 + 1 : Nat) : Int) * q = (t0 : Int) * q + q := by push_cast; ring
    rw [e] at ih1
    rw [List.range'_succ, List.map_cons]
    exact ⟨rfl, by simp only [h1, if_false]; omega, by simpa only [h1, if_false] using ih1⟩

theorem Server.blocks_chained (N tc : Int) (hN : 0 ≤ N) :
    chained 0 (Server.blocks N tc) N := by
  have hw := Server.workers_pos N tc
  have hdiv : Int.tdiv N (Server.workers N tc) = N / Server.workers N tc :=
    Int.tdiv_eq_ediv hN (by omega)
  have hq : 0 ≤ N / Server.workers N tc := Int.ediv_nonneg hN (by omega)
  have hmul : N / Server.workers N tc * Server.workers N tc ≤ N :=
    Int.ediv_mul_le N (by omega)
  have hwq : (Server.workers N tc - 1) * (N / Server.workers N tc) ≤ N := by nlinarith
  obtain ⟨n, hn⟩ : ∃ n : Nat, (Server.workers N tc).toNat = n + 1 :=
    ⟨(Server.workers N tc).toNat - 1, by omega⟩
  have h := Server.blocks_chained_aux N (Server.workers N tc) (N / Server.workers N tc) hq hwq
    n 0 (by omega)
  unfold Server.blocks
  rw [hdiv, hn, List.range_eq_range']
  simpa using h

theorem Server.place_secondary_diagonal_seq (mat : List Int) (N tc : Int) (hN : 0 ≤ N) :
    Server.place_secondary_diagonal mat N tc = Server.worker_loop N N.toNat 0 mat := by
  unfold Server.place_secondary_diagonal
  rw [Server.run_threads_chained N _ 0 N mat (Server.blocks_chained N tc hN)]
  simp

theorem Server.row_loop_none (mat : List Int) (N i : Int) (k : Nat) (j prod : Int)
    (hr : Server.mat_read mat (i * N + j) = none) :
    Server.row_loop mat N i (k + 1) j prod = none := by
  simp only [Server.row_loop, hr]

theorem Server.worker_loop_none (N : Int) (k : Nat) (i : Int) (mat : List Int)
    (hr : Server.row_loop mat N i N.toNat 0 1 = none) :
    Server.worker_loop N (k + 1) i mat = none := by
  simp only [Server.worker_loop, hr]

theorem Server.row_loop_overflow (mat : List Int) (N i : Nat) :
    ∀ (k j : Nat) (prod : Int), 1 ≤ k → 2147483648 < i * N + j + k →
      Server.row_loop mat N i k j prod = none := by
  intro k
  induction k with
  | zero => intro j prod h _; omega
  | succ k ih =>
    intro j prod _ h2
    cases hr : Server.mat_read mat ((i : Int) * (N : Int) + (j : Int)) with
    | none => exact Server.row_loop_none _ _ _ _ _ _ hr
    | some x =>
      have hk : 1 ≤ k := by
        by_contra hk
        have hk0 : k = 0 := by omega
        subst hk0
        have hbig : ¬ ((i : Int) * (N : Int) + (j : Int) < 2147483648) := by
          have : ((i : Int) * (N : Int) + (j : Int)) = ((i * N + j : Nat) : Int) := by
            push_cast; ring
          rw [this]
          have h3 : 2147483648 ≤ i * N + j := by omega
          exact_mod_cast not_lt.mpr h3
        simp only [Server.mat_read, hbig, and_false, if_false] at hr
        exact Option.noConfusion hr
      have hc : ((j : Int) + 1) = ((j + 1 : Nat) : Int) := by push_cast; rfl
      rw [Server.row_loop_step _ _ _ _ _ _ _ hr, hc]
      exact ih (j + 1) _ hk (by omega)

theorem Server.worker_loop_overflow (N : Nat) (hN : 1 ≤ N) (hbig : 2147483648 < N * N)
    (mat : List Int) : Server.worker_loop N N 0 mat = none := by
  obtain ⟨n, rfl⟩ : ∃ n, N = n + 1 := ⟨N - 1, by omega⟩
  have hrow : ∀ m1 : List Int,
      Server.row_loop m1 ((n + 1 : Nat) : Int) (n : Int) ((n + 1 : Nat) : Int).toNat 0 1 = none := by
    intro m1
    have := Server.row_loop_overflow m1 (n + 1) n (n + 1) 0 1 (by omega) (by
      have e : n * (n + 1) + 0 + (n + 1) = (n + 1) * (n + 1) := by ring
      rw [e]; exact hbig)
    simpa using this
  rw [Server.worker_loop_add (((n + 1 : Nat) : Int)) n 1 0 mat]
  cases Server.worker_loop ((n + 1 : Nat) : Int) n 0 mat with
  | none => rfl
  | some m1 =>
    rw [Option.some_bind, zero_add]
    exact Server.worker_loop_none _ 0 _ m1 (hrow m1)

theorem chained_count :
    ∀ (bs : List (Int × Int)) (s e : Int), chained s bs e → ∀ i : Int,
      bs.countP (fun b => decide (b.1 ≤ i ∧ i < b.2)) = if s ≤ i ∧ i < e then 1 else 0 := by
  intro bs
  induction bs with
  | nil =>
    intro s e h i
    have : s = e := h
    subst this
    have : ¬ (s ≤ i ∧ i < s) := by omega
    simp [this]
  | cons b bs ih =>
    intro s e h i
    obtain ⟨h1, h2, h3⟩ := h
    have h4 := chained_le bs _ _ h3
    rw [List.countP_cons, ih _ _ h3 i]
    by_cases c1 : b.1 ≤ i ∧ i < b.2
    · have c2 : ¬ (b.2 ≤ i ∧ i < e) := by omega
      have c3 : s ≤ i ∧ i < e := by omega
      simp [c1, c2, c3]
    · by_cases c2 : b.2 ≤ i ∧ i < e
      · have c3 : s ≤ i ∧ i < e := by omega
        simp [c1, c2, c3]
      · have c3 : ¬ (s ≤ i ∧ i < e) := by omega
        simp [c1, c2, c3]

theorem Server.blocks_length (N tc : Int) :
    (Server.blocks N tc).length = (Server.workers N tc).toNat := by
  simp [Server.blocks]

theorem Server.blocks_getElem? (N tc : Int) (t : Nat) (ht : (t : Int) < Server.workers N tc) :
    (Server.blocks N tc)[t]?
      = some ((t : Int) * Int.tdiv N (Server.workers N tc),
          if (t : Int) + 1 < Server.workers N tc
          then ((t : Int) + 1) * Int.tdiv N (Server.workers N tc) else N) := by
  have ht2 : t < (Server.workers N tc).toNat := by omega
  simp only [Server.blocks, List.getElem?_map, List.getElem?_range ht2, Option.map_some']
  by_cases h : (t : Int) + 1 = Server.workers N tc
  · have h2 : ¬ ((t : Int) + 1 < Server.workers N tc) := by omega
    rw [if_pos h, if_neg h2]
  · have h2 : (t : Int) + 1 < Server.workers N tc := by omega
    rw [if_neg h, if_pos h2]
    congr 2
    ring

theorem antidiag_injective (N i j : Int) (hi0 : 0 ≤ i) (hi : i < N) (hj0 : 0 ≤ j) (hj : j < N)
    (hne : i ≠ j) : i * N + (N - 1 - i) ≠ j * N + (N - 1 - j) := by
  intro h
  have h1 : (i - j) * (N - 1) = 0 := by linarith
  rcases mul_eq_zero.mp h1 with h2 | h2
  · exact hne (by omega)
  · have : N = 1 := by omega
    omega

/-! ## Facts about the session loop -/

theorem ntohl_load32 (buf : List Byte) (off : Nat) :
    ntohl (load32 buf off) = be32_at buf off := by
  unfold load32 be32_at
  rw [ntohl_of_bytes _ _ _ _ (buf.getD off 0).isLt (buf.getD (off + 1) 0).isLt
    (buf.getD (off + 2) 0).isLt (buf.getD (off + 3) 0).isLt]
  omega

theorem be32_at_lt (buf : List Byte) (off : Nat) : be32_at buf off < 4294967296 := by
  unfold be32_at
  have h0 := (buf.getD off 0).isLt
  have h1 := (buf.getD (off + 1) 0).isLt
  have h2 := (buf.getD (off + 2) 0).isLt
  have h3 := (buf.getD (off + 3) 0).isLt
  omega

theorem i32_u32 (x : Int) (h1 : -2147483648 ≤ x) (h2 : x < 2147483648) :
    i32 ((u32 x : Nat) : Int) = x := by
  unfold i32 u32
  omega

theorem u32_lt (x : Int) : u32 x < 4294967296 := by
  unfold u32
  omega

theorem Server.ack (t : Nat) : (Server.send_message [] t []).2 = be32 t ++ be32 0 := by
  rw [Server.send_message_wire [] t [] (by decide)]
  rfl

theorem Server.reply (t : Nat) (p : List Byte) (hp : p.length < 2147483648) :
    (Server.send_message [] t p).2 = be32 t ++ (be32 p.length ++ p) := by
  rw [Server.send_message_wire [] t p hp]
  rfl

theorem Server.data_loop_length (payload : List Byte) :
    ∀ (k i : Nat) (matrix : List Int),
      (Server.data_loop payload k i matrix).length = matrix.length := by
  intro k
  induction k with
  | zero => intro i matrix; rfl
  | succ k ih =>
    intro i matrix
    rw [Server.data_loop, ih, List.length_set]

theorem Server.resize_matrix_length (old : List Int) (n : Nat) :
    (Server.resize_matrix old n).length = n := by
  simp only [Server.resize_matrix, List.length_append, List.length_take, List.length_replicate]
  omega

theorem Server.handle_config (s : Server.Session) (e : Nat) (p : List Byte)
    (hp : 8 ≤ p.length) :
    Server.handle_message s e TLV_CONFIG p
      = some ({ s with N := i32 (be32_at p 0), thread_count := i32 (be32_at p 4) },
          be32 1 ++ be32 0) := by
  have h : ¬ p.length < 8 := by omega
  simp only [Server.handle_message, if_true, h, if_false, ntohl_load32, Server.ack]
  rfl

theorem Server.handle_data (s : Server.Session) (e : Nat) (p : List Byte)
    (h1 : s.N * s.N < 2147483648) (h2 : 4 * (s.N * s.N).toNat ≤ p.length) :
    Server.handle_message s e TLV_DATA p
      = some ({ s with matrix := Server.data_loop p (s.N * s.N).toNat 0
                          (Server.resize_matrix s.matrix (s.N * s.N).toNat),
                       has_data := true },
          be32 2 ++ be32 0) := by
  have c : TLV_DATA ≠ TLV_CONFIG := by decide
  simp only [Server.handle_message, c, if_false, if_true, h1, h2, and_self, Server.ack]
  rfl

theorem Server.handle_compute_loaded (s : Server.Session) (e : Nat) (p : List Byte)
    (m : List Int) (h1 : s.has_data = true)
    (h2 : Server.place_secondary_diagonal s.matrix s.N s.thread_count = some m) :
    Server.handle_message s e TLV_COMPUTE p
      = some ({ s with matrix := m, time_sec := e, computed := true }, be32 3 ++ be32 0) := by
  have c1 : TLV_COMPUTE ≠ TLV_CONFIG := by decide
  have c2 : TLV_COMPUTE ≠ TLV_DATA := by decide
  simp only [Server.handle_message, c1, c2, if_false, if_true, h1, h2, Server.ack]
  rfl

theorem Server.handle_compute_empty (s : Server.Session) (e : Nat) (p : List Byte)
    (h1 : s.has_data = false) :
    Server.handle_message s e TLV_COMPUTE p = some (s, be32 3 ++ be32 0) := by
  have c1 : TLV_COMPUTE ≠ TLV_CONFIG := by decide
  have c2 : TLV_COMPUTE ≠ TLV_DATA := by decide
  simp only [Server.handle_message, c1, c2, if_false, if_true, h1, Server.ack]
  rfl

theorem Server.handle_status (s : Server.Session) (e : Nat) (p : List Byte) :
    Server.handle_message s e TLV_STATUS p
      = some (s, be32 4 ++ (be32 1 ++
          [if s.computed then 2 else if s.has_data then 1 else 0])) := by
  have c1 : TLV_STATUS ≠ TLV_CONFIG := by decide
  have c2 : TLV_STATUS ≠ TLV_DATA := by decide
  have c3 : TLV_STATUS ≠ TLV_COMPUTE := by decide
  simp only [Server.handle_message, c1, c2, c3, if_false, if_true]
  rw [Server.reply _ _ (by simp)]
  rfl

theorem Server.result_payload_length (s : Server.Session) :
    (Server.result_payload s).length = 16 := rfl

theorem Server.handle_result_done (s : Server.Session) (e : Nat) (p : List Byte)
    (h : s.computed = true) :
    Server.handle_message s e TLV_RESULT p
      = some (s, be32 5 ++ (be32 16 ++ Server.result_payload s)) := by
  have c1 : TLV_RESULT ≠ TLV_CONFIG := by decide
  have c2 : TLV_RESULT ≠ TLV_DATA := by decide
  have c3 : TLV_RESULT ≠ TLV_COMPUTE := by decide
  have c4 : TLV_RESULT ≠ TLV_STATUS := by decide
  simp only [Server.handle_message, c1, c2, c3, c4, if_false, if_true, h]
  rw [Server.reply _ _ (by rw [Server.result_payload_length]; decide),
    Server.result_payload_length]
  rfl

theorem Server.handle_result_early (s : Server.Session) (e : Nat) (p : List Byte)
    (h : s.computed = false) :
    Server.handle_message s e TLV_RESULT p = some (s, be32 255 ++ be32 0) := by
  have c1 : TLV_RESULT ≠ TLV_CONFIG := by decide
  have c2 : TLV_RESULT ≠ TLV_DATA := by decide
  have c3 : TLV_RESULT ≠ TLV_COMPUTE := by decide
  have c4 : TLV_RESULT ≠ TLV_STATUS := by decide
  simp only [Server.handle_message, c1, c2, c3, c4, if_false, if_true, h, Server.ack]
  rfl

theorem Server.handle_other (s : Server.Session) (e t : Nat) (p : List Byte)
    (h1 : t ≠ TLV_CONFIG) (h2 : t ≠ TLV_DATA) (h3 : t ≠ TLV_COMPUTE) (h4 : t ≠ TLV_STATUS)
    (h5 : t ≠ TLV_RESULT) :
    Server.handle_message s e t p = some (s, be32 255 ++ be32 0) := by
  simp only [Server.handle_message, h1, h2, h3, h4, h5, if_false, Server.ack]
  rfl

theorem Server.kernel_total (N : Nat) (W : Int) (m : List Int) (hNN : N * N < 2147483648)
    (hm : m.length = N * N) :
    ∃ m1, Server.place_secondary_diagonal m N W = some m1 ∧ m1.length = N * N := by
  obtain ⟨m1, e, l, _, _⟩ := Server.worker_loop_spec N hNN N 0 m hm (by omega)
  refine ⟨m1, ?_, l⟩
  rw [Server.place_secondary_diagonal_seq m N W (by omega), Int.toNat_ofNat]
  exact_mod_cast e

theorem be32_at_be32_0 (a : Nat) (l : List Byte) :
    be32_at (be32 a ++ l) 0 = a % 4294967296 := by
  rw [← ntohl_load32, ntohl_load32_be32_0]

theorem be32_at_be32_4 (a b : Nat) (l : List Byte) :
    be32_at (be32 a ++ (be32 b ++ l)) 4 = b % 4294967296 := by
  rw [← ntohl_load32, ntohl_load32_be32_4]

theorem Client.config_payload_eq (n w : Int) :
    Client.config_payload n w = be32 (u32 n) ++ (be32 (u32 w) ++ []) := by
  unfold Client.config_payload
  rw [mem32_htonl, mem32_htonl, List.append_nil]

theorem Server.result_payload_eq (s : Server.Session) :
    Server.result_payload s
      = be32 (u32 s.N) ++ (be32 (u32 s.thread_count) ++ mem64 (Server.swap_64 s.time_sec)) := by
  unfold Server.result_payload
  rw [mem32_htonl, mem32_htonl, List.append_assoc]

theorem Server.handle_client_cons (s s1 : Server.Session) (m : Server.Msg)
    (ms : List Server.Msg) (out : List Byte)
    (h : Server.handle_message s m.elapsed m.msg_type m.payload = some (s1, out)) :
    Server.handle_client s (m :: ms)
      = (Server.handle_client s1 ms).map fun r => (r.1, out :: r.2) := by
  rw [Server.handle_client, h]
  cases hr : Server.handle_client s1 ms with
  | none => simp only [hr, Option.map_none']
  | some r => simp only [hr, Option.map_some']

theorem Server.handle_message_flags (s s1 : Server.Session) (e t : Nat) (p out : List Byte)
    (h : Server.handle_message s e t p = some (s1, out)) :
    s1.has_data = (s.has_data || decide (t = TLV_DATA))
      ∧ s1.computed = (s.computed || (decide (t = TLV_COMPUTE) && s.has_data)) := by
  by_cases h1 : t = TLV_CONFIG
  · subst h1
    by_cases hp : 8 ≤ p.length
    · rw [Server.handle_config s e p hp] at h
      injection h with h; injection h with h _; subst h
      simp [TLV_CONFIG, TLV_DATA, TLV_COMPUTE]
    · have hp2 : p.length < 8 := by omega
      simp [Server.handle_message, hp2] at h
  by_cases h2 : t = TLV_DATA
  · subst h2
    by_cases hd : s.N * s.N < 2147483648 ∧ 4 * (s.N * s.N).toNat ≤ p.length
    · rw [Server.handle_data s e p hd.1 hd.2] at h
      injection h with h; injection h with h _; subst h
      simp [TLV_DATA, TLV_COMPUTE]
    · simp [Server.handle_message, TLV_DATA, TLV_CONFIG, hd] at h
  by_cases h3 : t = TLV_COMPUTE
  · subst h3
    cases hh : s.has_data with
    | false =>
      rw [Server.handle_compute_empty s e p hh] at h
      injection h with h; injection h with h _; subst h
      simp [TLV_DATA, TLV_COMPUTE, hh]
    | true =>
      cases hk : Server.place_secondary_diagonal s.matrix s.N s.thread_count with
      | none => simp [Server.handle_message, TLV_COMPUTE, TLV_DATA, TLV_CONFIG, hh, hk] at h
      | some m =>
        rw [Server.handle_compute_loaded s e p m hh hk] at h
        injection h with h; injection h with h _; subst h
        simp [TLV_DATA, TLV_COMPUTE, hh]
  by_cases h4 : t = TLV_STATUS
  · subst h4
    rw [Server.handle_status] at h
    injection h with h; injection h with h _; subst h
    simp [TLV_DATA, TLV_COMPUTE, TLV_STATUS]
  by_cases h5 : t = TLV_RESULT
  · subst h5
    cases hc : s.computed with
    | false =>
      rw [Server.handle_result_early s e p hc] at h
      injection h with h; injection h with h _; subst h
      simp [TLV_DATA, TLV_COMPUTE, TLV_RESULT, hc]
    | true =>
      rw [Server.handle_result_done s e p hc] at h
      injection h with h; injection h with h _; subst h
      simp [TLV_DATA, TLV_COMPUTE, TLV_RESULT, hc]
  · rw [Server.handle_other s e t p h1 h2 h3 h4 h5] at h
    injection h with h; injection h with h _; subst h
    simp [h2, h3]

theorem Server.handle_client_flags :
    ∀ (ms : List Server.Msg) (s s1 : Server.Session) (outs : List (List Byte)),
      Server.handle_client s ms = some (s1, outs) →
      s1.has_data = (s.has_data || sawData ms)
        ∧ s1.computed = (s.computed || didCompute s.has_data ms) := by
  intro ms
  induction ms with
  | nil =>
    intro s s1 outs h
    simp only [Server.handle_client] at h
    injection h with h; injection h with h _; subst h
    simp [sawData, didCompute]
  | cons m ms ih =>
    intro s s1 outs h
    cases hm : Server.handle_message s m.elapsed m.msg_type m.payload with
    | none => simp [Server.handle_client, hm] at h
    | some r =>
      obtain ⟨s2, out⟩ := r
      rw [Server.handle_client_cons s s2 m ms out hm] at h
      cases hr : Server.handle_client s2 ms with
      | none => simp [hr] at h
      | some r2 =>
        obtain ⟨s3, outs2⟩ := r2
        rw [hr] at h
        simp only [Option.map_some', Option.some.injEq, Prod.mk.injEq] at h
        obtain ⟨h3, _⟩ := h
        subst h3
        obtain ⟨f1, f2⟩ := Server.handle_message_flags s s2 _ _ _ out hm
        obtain ⟨g1, g2⟩ := ih s2 s3 outs2 hr
        rw [g1, g2, f1, f2]
        simp only [sawData, didCompute, Bool.or_assoc]
        exact ⟨trivial, trivial⟩

theorem reachableNoCompute_computed (s : Server.Session) (h : ReachableNoCompute s) :
    s.computed = false := by
  induction h with
  | init => rfl
  | step s s1 e t p out _ hno hstep ih =>
    obtain ⟨_, f2⟩ := Server.handle_message_flags s s1 e t p out hstep
    rw [f2, ih]
    by_cases ht : t = TLV_COMPUTE
    · have : s.has_data = false := by
        cases hh : s.has_data with
        | false => rfl
        | true => exact absurd ⟨ht, hh⟩ hno
      simp [this]
    · simp [ht]

theorem Server.handle_compute_undefined (s : Server.Session) (e : Nat) (p : List Byte)
    (h1 : s.has_data = true)
    (h2 : Server.place_secondary_diagonal s.matrix s.N s.thread_count = none) :
    Server.handle_message s e TLV_COMPUTE p = none := by
  have c1 : TLV_COMPUTE ≠ TLV_CONFIG := by decide
  have c2 : TLV_COMPUTE ≠ TLV_DATA := by decide
  simp only [Server.handle_message, c1, c2, if_false, if_true, h1, h2]

theorem Server.handle_compute_map (s : Server.Session) (e : Nat) (p : List Byte)
    (h1 : s.has_data = true) :
    Server.handle_message s e TLV_COMPUTE p
      = (Server.place_secondary_diagonal s.matrix s.N s.thread_count).map fun m =>
          (Server.Session.mk s.N s.thread_count m true true e, be32 3 ++ be32 0) := by
  cases hk : Server.place_secondary_diagonal s.matrix s.N s.thread_count with
  | none => rw [Server.handle_compute_undefined s e p h1 hk]; rfl
  | some m =>
    rw [Server.handle_compute_loaded s e p m h1 hk, Option.map_some', h1]

theorem Server.kernel_total_int (N W : Int) (m : List Int) (h0 : 0 ≤ N)
    (hNN : N * N < 2147483648) (hm : (m.length : Int) = N * N) :
    ∃ m1, Server.place_secondary_diagonal m N W = some m1
      ∧ (m1.length : Int) = N * N := by
  obtain ⟨n, rfl⟩ : ∃ n : Nat, N = (n : Int) := ⟨N.toNat, by omega⟩
  have h1 : n * n < 2147483648 := by exact_mod_cast hNN
  have h2 : m.length = n * n := by exact_mod_cast hm
  obtain ⟨m1, e1, l1⟩ := Server.kernel_total n W m h1 h2
  exact ⟨m1, e1, by exact_mod_cast l1⟩

/-! ## Facts about `swap_64` and the accumulator -/

theorem htonl_lt (x : Nat) : htonl x < 4294967296 := by
  unfold htonl
  omega

theorem be32_mod (x : Nat) : be32 (x % 4294967296) = be32 x := by
  have h1 := Nat.div_div_eq_div_mul x 256 16777216
  have h2 := Nat.div_div_eq_div_mul x 65536 65536
  have h3 := Nat.div_div_eq_div_mul x 16777216 256
  norm_num at h1 h2 h3
  simp only [be32, byte, List.cons.injEq, Fin.mk.injEq, and_true]
  refine ⟨?_, ?_, ?_, ?_⟩ <;> omega

theorem ntohl_htonl (x : Nat) : ntohl (htonl x) = x % 4294967296 := by
  have e : htonl x = x / 16777216 % 256 + 256 * (x / 65536 % 256)
      + 65536 * (x / 256 % 256) + 16777216 * (x % 256) := by
    unfold htonl; omega
  rw [e, ntohl_of_bytes _ _ _ _ (Nat.mod_lt _ (by decide)) (Nat.mod_lt _ (by decide))
    (Nat.mod_lt _ (by decide)) (Nat.mod_lt _ (by decide)), word_split x]
  omega

theorem mem64_swap_64 (v : Nat) : mem64 (Server.swap_64 v) = be64 v := by
  have h1 := htonl_lt (v % 4294967296)
  have h2 := htonl_lt (v / 4294967296 % 4294967296)
  have e1 : Server.swap_64 v % 4294967296 = htonl (v / 4294967296 % 4294967296) := by
    unfold Server.swap_64; omega
  have e2 : Server.swap_64 v / 4294967296 = htonl (v % 4294967296) := by
    unfold Server.swap_64; omega
  unfold mem64 be64
  rw [e1, e2, mem32_htonl, mem32_htonl, be32_mod, be32_mod]

theorem Client.swap_64_server (v : Nat) (hv : v < 18446744073709551616) :
    Client.swap_64 (Server.swap_64 v) = v := by
  have h1 := htonl_lt (v % 4294967296)
  have h2 := htonl_lt (v / 4294967296 % 4294967296)
  have e1 : Server.swap_64 v % 4294967296 = htonl (v / 4294967296 % 4294967296) := by
    unfold Server.swap_64; omega
  have e2 : Server.swap_64 v / 4294967296 % 4294967296 = htonl (v % 4294967296) := by
    unfold Server.swap_64; omega
  unfold Client.swap_64
  rw [e1, e2, ntohl_htonl, ntohl_htonl]
  omega

theorem load32_mem32_8 (b0 b1 b2 b3 b4 b5 b6 b7 : Byte) (x : Nat) (l : List Byte) :
    load32 (b0 :: b1 :: b2 :: b3 :: b4 :: b5 :: b6 :: b7 :: (mem32 x ++ l)) 8
      = x % 4294967296 := by
  simp only [load32, mem32, byte, List.cons_append, List.getD_cons_zero, List.getD_cons_succ]
  rw [word_split x]

theorem load32_mem32_12 (b0 b1 b2 b3 b4 b5 b6 b7 : Byte) (x y : Nat) (l : List Byte) :
    load32 (b0 :: b1 :: b2 :: b3 :: b4 :: b5 :: b6 :: b7 :: (mem32 x ++ (mem32 y ++ l))) 12
      = y % 4294967296 := by
  simp only [load32, mem32, byte, List.cons_append, List.nil_append, List.getD_cons_zero,
    List.getD_cons_succ]
  rw [word_split y]

theorem load64_result_payload (s : Server.Session) :
    load64 (Server.result_payload s) 8
      = Server.swap_64 s.time_sec % 18446744073709551616 := by
  have e : Server.result_payload s
      = byte (htonl (u32 s.N)) :: byte (htonl (u32 s.N) / 256)
        :: byte (htonl (u32 s.N) / 65536) :: byte (htonl (u32 s.N) / 16777216)
        :: byte (htonl (u32 s.thread_count)) :: byte (htonl (u32 s.thread_count) / 256)
        :: byte (htonl (u32 s.thread_count) / 65536)
        :: byte (htonl (u32 s.thread_count) / 16777216)
        :: (mem32 (Server.swap_64 s.time_sec % 4294967296)
            ++ (mem32 (Server.swap_64 s.time_sec / 4294967296) ++ [])) := by
    simp [Server.result_payload, mem32, mem64]
  unfold load64
  rw [e, load32_mem32_8, load32_mem32_12]
  omega

theorem i32_congr (a b : Int) (h : a % 4294967296 = b % 4294967296) : i32 a = i32 b := by
  unfold i32
  omega

theorem i64_emod (y : Int) : i64 y % 4294967296 = y % 4294967296 := by
  unfold i64
  omega

theorem i32_emod (y : Int) : i32 y % 4294967296 = y % 4294967296 := by
  unfold i32
  omega

theorem i32_eq_self_iff (y : Int) : i32 y = y ↔ (-2147483648 ≤ y ∧ y < 2147483648) := by
  unfold i32
  omega

theorem foldl64_emod (xs : List Int) :
    ∀ p : Int, xs.foldl (fun prod x => i64 (prod * x)) p % 4294967296
      = (p * xs.prod) % 4294967296 := by
  induction xs with
  | nil => intro p; simp
  | cons x xs ih =>
    intro p
    rw [List.foldl_cons, ih, List.prod_cons, ← mul_assoc]
    exact Int.ModEq.mul_right _ (i64_emod (p * x))

theorem foldl32_emod (xs : List Int) :
    ∀ p : Int, xs.foldl (fun prod x => i32 (prod * x)) p % 4294967296
      = (p * xs.prod) % 4294967296 := by
  induction xs with
  | nil => intro p; simp
  | cons x xs ih =>
    intro p
    rw [List.foldl_cons, ih, List.prod_cons, ← mul_assoc]
    exact Int.ModEq.mul_right _ (i32_emod (p * x))

theorem foldl32_range (xs : List Int) :
    ∀ p : Int, -2147483648 ≤ p → p < 2147483648 →
      (-2147483648 ≤ xs.foldl (fun prod x => i32 (prod * x)) p
        ∧ xs.foldl (fun prod x => i32 (prod * x)) p < 2147483648) := by
  induction xs with
  | nil => intro p h1 h2; exact ⟨h1, h2⟩
  | cons x xs ih =>
    intro p _ _
    rw [List.foldl_cons]
    apply ih <;> (unfold i32; omega)

theorem prod_small (xs : List Int) (h : ∀ x ∈ xs, 1 ≤ x ∧ x ≤ 10) :
    1 ≤ xs.prod ∧ xs.prod ≤ 10 ^ xs.length := by
  induction xs with
  | nil => simp
  | cons x xs ih =>
    have hx := h x (List.mem_cons_self _ _)
    have ih1 := ih (fun y hy => h y (List.mem_cons_of_mem _ hy))
    rw [List.prod_cons, List.length_cons, pow_succ]
    constructor
    · nlinarith
    · nlinarith

/-! ## Facts about the DATA payload -/

theorem Client.data_payload_cons (v : Int) (vs : List Int) :
    Client.data_payload (v :: vs) = be32 (u32 v) ++ Client.data_payload vs := by
  rw [Client.data_payload, mem32_htonl]

theorem Client.data_payload_length (m : List Int) :
    (Client.data_payload m).length = 4 * m.length := by
  induction m with
  | nil => rfl
  | cons v vs ih =>
    rw [Client.data_payload_cons, List.length_append, be32_length, ih, List.length_cons]
    omega

theorem Client.data_payload_word (m : List Int) :
    ∀ (i : Nat) (x : Int), m[i]? = some x →
      ((Client.data_payload m).drop (4 * i)).take 4 = be32 (u32 x) := by
  induction m with
  | nil => intro i x h; simp at h
  | cons v vs ih =>
    intro i x h
    rw [Client.data_payload_cons]
    cases i with
    | zero =>
      simp only [List.getElem?_cons_zero, Option.some.injEq] at h
      subst h
      simp [be32]
    | succ i =>
      simp only [List.getElem?_cons_succ] at h
      have e : 4 * (i + 1) = (be32 (u32 v)).length + 4 * i := by rw [be32_length]; omega
      rw [e, List.drop_append]
      exact ih i x h

theorem be32_at_shift (a : Nat) (l : List Byte) (n : Nat) :
    be32_at (be32 a ++ l) (n + 4) = be32_at l n := by
  simp [be32_at, be32, List.getD_cons_succ]

theorem Client.data_payload_decode (m : List Int) :
    ∀ (i : Nat) (x : Int), m[i]? = some x → -2147483648 ≤ x → x < 2147483648 →
      i32 (ntohl (load32 (Client.data_payload m) (4 * i))) = x := by
  induction m with
  | nil => intro i x h; simp at h
  | cons v vs ih =>
    intro i x h h1 h2
    rw [Client.data_payload_cons, ntohl_load32]
    cases i with
    | zero =>
      simp only [List.getElem?_cons_zero, Option.some.injEq] at h
      subst h
      rw [be32_at_be32_0, Nat.mod_eq_of_lt (u32_lt _), i32_u32 _ h1 h2]
    | succ i =>
      simp only [List.getElem?_cons_succ] at h
      have e : 4 * (i + 1) = 4 * i + 4 := by omega
      rw [e, be32_at_shift, ← ntohl_load32]
      exact ih i x h h1 h2

theorem Server.data_loop_getElem? (payload : List Byte) :
    ∀ (k i : Nat) (matrix : List Int) (j : Nat), i + k ≤ matrix.length →
      (Server.data_loop payload k i matrix)[j]?
        = if i ≤ j ∧ j < i + k then some (i32 (ntohl (load32 payload (4 * j))))
          else matrix[j]? := by
  intro k
  induction k with
  | zero =>
    intro i matrix j _
    have : ¬ (i ≤ j ∧ j < i + 0) := by omega
    rw [if_neg this]
    rfl
  | succ k ih =>
    intro i matrix j h
    rw [Server.data_loop, ih (i + 1) _ j (by rw [List.length_set]; omega)]
    by_cases c1 : i + 1 ≤ j ∧ j < i + 1 + k
    · have c2 : i ≤ j ∧ j < i + (k + 1) := by omega
      rw [if_pos c1, if_pos c2]
    · rw [if_neg c1]
      by_cases c3 : j = i
      · subst c3
        have c2 : j ≤ j ∧ j < j + (k + 1) := by omega
        rw [if_pos c2, List.getElem?_set_self (by omega)]
      · have c2 : ¬ (i ≤ j ∧ j < i + (k + 1)) := by omega
        rw [if_neg c2, List.getElem?_set_ne (by omega)]

theorem Server.data_loop_decodes (m old : List Int)
    (hr : ∀ x ∈ m, -2147483648 ≤ x ∧ x < 2147483648) :
    Server.data_loop (Client.data_payload m) m.length 0 (Server.resize_matrix old m.length)
      = m := by
  apply List.ext_getElem?
  intro j
  rw [Server.data_loop_getElem? _ _ _ _ _ (by rw [Server.resize_matrix_length]; omega)]
  by_cases hj : j < m.length
  · have c : 0 ≤ j ∧ j < 0 + m.length := by omega
    rw [if_pos c, List.getElem?_eq_getElem hj]
    have hx := hr m[j] (List.getElem_mem hj)
    rw [Client.data_payload_decode m j m[j] (List.getElem?_eq_getElem hj) hx.1 hx.2]
  · have c : ¬ (0 ≤ j ∧ j < 0 + m.length) := by omega
    rw [if_neg c, List.getElem?_eq_none (by rw [Server.resize_matrix_length]; omega),
      List.getElem?_eq_none (by omega)]

/-! ## Facts about the order of the rows -/

theorem Server.worker_one (N : Int) (mat : List Int) (r : Nat) :
    Server.worker N mat r (r + 1) = Server.worker_loop N 1 r mat := by
  unfold Server.worker
  have : ((r : Int) + 1 - (r : Int)).toNat = 1 := by omega
  rw [this]

theorem Server.worker_loop_zero (N i : Int) (mat : List Int) :
    Server.worker_loop N 0 i mat = some mat := rfl

theorem Server.worker_row (N : Nat) (mat : List Int) (r : Nat) (hr : r < N)
    (hl : mat.length = N * N) (hNN : N * N < 2147483648) :
    Server.worker N mat r (r + 1)
      = some (mat.set (r * N + (N - 1 - r)) (i32 (prod64 (row mat N r)))) := by
  have hb := row_bound N r hr
  have hrow := Server.row_loop_row mat N r (by omega) (by omega)
  have hwr := Server.mat_write_nat mat r N (i32 (prod64 (row mat N r))) hr (by omega) (by omega)
  rw [Server.worker_one, Server.worker_loop_step _ _ _ _ _ _ hrow hwr, Server.worker_loop_zero]

theorem process_rows_cons (N : Int) (r : Nat) (rs : List Nat) (mat mat1 : List Int)
    (h : Server.worker N mat r (r + 1) = some mat1) :
    process_rows N (r :: rs) mat = process_rows N rs mat1 := by
  rw [process_rows, h]

theorem process_rows_cons_none (N : Int) (r : Nat) (rs : List Nat) (mat : List Int)
    (h : Server.worker N mat r (r + 1) = none) :
    process_rows N (r :: rs) mat = none := by
  rw [process_rows, h]

theorem process_rows_spec (N : Nat) (hNN : N * N < 2147483648) :
    ∀ (rs : List Nat) (mat : List Int), mat.length = N * N → (∀ r ∈ rs, r < N) → rs.Nodup →
      ∃ mat1, process_rows N rs mat = some mat1 ∧ mat1.length = N * N
        ∧ (∀ r ∈ rs, mat1[r * N + (N - 1 - r)]? = some (i32 (prod64 (row mat N r))))
        ∧ (∀ idx, (∀ r ∈ rs, idx ≠ r * N + (N - 1 - r)) → mat1[idx]? = mat[idx]?) := by
  intro rs
  induction rs with
  | nil =>
    intro mat hl _ _
    exact ⟨mat, rfl, hl, fun r hr => absurd hr (List.not_mem_nil r), fun idx _ => rfl⟩
  | cons r0 rs ih =>
    intro mat hl hlt hnd
    have hr0 : r0 < N := hlt r0 (List.mem_cons_self _ _)
    have hb := row_bound N r0 hr0
    have hstep := Server.worker_row N mat r0 hr0 hl hNN
    obtain ⟨hnot, hnd1⟩ := List.nodup_cons.mp hnd
    obtain ⟨mat1, e1, l1, a1, b1⟩ := ih
      (mat.set (r0 * N + (N - 1 - r0)) (i32 (prod64 (row mat N r0))))
      (by rw [List.length_set]; exact hl)
      (fun r hr => hlt r (List.mem_cons_of_mem _ hr)) hnd1
    have apart : ∀ s ∈ rs, r0 * N + (N - 1 - r0) ≠ s * N + (N - 1 - s) := by
      intro s hs heq
      have hs1 : s < N := hlt s (List.mem_cons_of_mem _ hs)
      have hne : s ≠ r0 := fun h => hnot (h ▸ hs)
      rcases Nat.lt_or_gt_of_ne hne with h | h
      · have := rows_apart N s r0 h
        omega
      · have := rows_apart N r0 s h
        omega
    refine ⟨mat1, ?_, l1, ?_, ?_⟩
    · rw [process_rows_cons _ _ _ _ _ hstep, e1]
    · intro r hr
      rcases List.mem_cons.mp hr with h | h
      · subst h
        rw [b1 _ apart, List.getElem?_set_self (by omega)]
      · have hr1 : r < N := hlt r hr
        have hne : r ≠ r0 := fun h2 => hnot (h2 ▸ h)
        rw [a1 r h, row_set_other]
        rcases Nat.lt_or_gt_of_ne hne with h3 | h3
        · have := rows_apart N r r0 h3
          omega
        · have := rows_apart N r0 r h3
          omega
    · intro idx hidx
      rw [b1 idx (fun s hs => hidx s (List.mem_cons_of_mem _ hs)), List.getElem?_set_ne]
      exact fun h => hidx r0 (List.mem_cons_self _ _) h.symm

theorem process_rows_overflow (N : Nat) (hN : 1 ≤ N) (r : Nat)
    (hbig : 2147483648 < r * N + N) :
    ∀ (rs : List Nat) (mat : List Int), r ∈ rs → process_rows N rs mat = none := by
  have hrow : ∀ m1 : List Int, Server.worker N m1 r (r + 1) = none := by
    intro m1
    rw [Server.worker_one]
    apply Server.worker_loop_none
    have := Server.row_loop_overflow m1 N r N 0 1 hN (by omega)
    simpa using this
  intro rs
  induction rs with
  | nil => intro mat h; exact absurd h (List.not_mem_nil r)
  | cons r0 rs ih =>
    intro mat h
    cases hw : Server.worker N mat r0 (r0 + 1) with
    | none => exact process_rows_cons_none _ _ _ _ hw
    | some mat1 =>
      rw [process_rows_cons _ _ _ _ _ hw]
      rcases List.mem_cons.mp h with h1 | h1
      · subst h1
        rw [hrow mat] at hw
        exact Option.noConfusion hw
      · exact ih mat1 h1

theorem square_ne_two_pow_31 (N : Nat) : N * N ≠ 2147483648 := by
  intro h
  rcases Nat.lt_or_ge N 46341 with h1 | h1
  · have : N * N ≤ 46340 * 46340 := Nat.mul_le_mul (by omega) (by omega)
    omega
  · have : 46341 * 46341 ≤ N * N := Nat.mul_le_mul h1 h1
    omega

theorem process_rows_kernel (N : Nat) (m : List Int) (hm : m.length = N * N) (W : Int)
    (order : List Nat) (hperm : order.Perm (List.range N)) :
    Server.place_secondary_diagonal m N W = process_rows N order m := by
  rw [Server.place_secondary_diagonal_seq m N W (by omega), Int.toNat_ofNat]
  have hmem : ∀ r, r ∈ order ↔ r < N := fun r => by
    rw [hperm.mem_iff, List.mem_range]
  rcases Nat.lt_or_ge (N * N) 2147483648 with hNN | hNN
  · obtain ⟨m1, e1, l1, a1, b1⟩ := Server.worker_loop_spec N hNN N 0 m hm (by omega)
    obtain ⟨m2, e2, l2, a2, b2⟩ := process_rows_spec N hNN order m hm
      (fun r hr => (hmem r).mp hr) (hperm.nodup_iff.mpr (List.nodup_range N))
    have he : Server.worker_loop (N : Int) N ((0 : Nat) : Int) m = some m1 := e1
    rw [show ((0 : Nat) : Int) = 0 from rfl] at he
    rw [he, e2]
    congr 1
    apply List.ext_getElem?
    intro idx
    by_cases hex : ∃ r, r < N ∧ idx = r * N + (N - 1 - r)
    · obtain ⟨r, hr, rfl⟩ := hex
      rw [a1 r (by omega) (by omega), a2 r ((hmem r).mpr hr)]
    · have hn : ∀ r, r < N → idx ≠ r * N + (N - 1 - r) := fun r hr h => hex ⟨r, hr, h⟩
      rw [b1 idx (fun r _ hr => hn r (by omega)), b2 idx (fun r hr => hn r ((hmem r).mp hr))]
  · have hbig : 2147483648 < N * N := by
      have := square_ne_two_pow_31 N
      omega
    have hN : 1 ≤ N := by
      rcases Nat.eq_zero_or_pos N with h | h
      · subst h; simp at hbig
      · exact h
    rw [Server.worker_loop_overflow N hN hbig m]
    have hlast : N - 1 ∈ order := (hmem _).mpr (by omega)
    have e : (N - 1) * N + N = N * N := by
      have := Nat.succ_mul (N - 1) N
      rw [Nat.succ_eq_add_one, Nat.sub_add_cancel hN] at this
      omega
    exact (process_rows_overflow N hN (N - 1) (by rw [e]; exact hbig) order m hlast).symm

/-! ## Facts about the client run -/

theorem Client.poll_loop_closed :
    ∀ (k : Nat) (w : List Byte),
      Client.poll_loop k ⟨[], w⟩
        = (false, ⟨[], w ++ (List.replicate k (be32 4 ++ be32 0)).flatten⟩) := by
  intro k
  induction k with
  | zero => intro w; simp [Client.poll_loop]
  | succ k ih =>
    intro w
    have hr : Client.recv_tlv [] 0 [] = ⟨false, 0, [], []⟩ := by decide
    have hp : Client.poll_done 0 [] = false := by decide
    have hs : (Client.send_tlv w TLV_STATUS []).2 = w ++ (be32 4 ++ be32 0) := by
      rw [Client.send_tlv_wire w TLV_STATUS [] (by decide)]
      rfl
    rw [Client.poll_loop]
    simp only [hr, hp, hs, Bool.false_eq_true, if_false]
    rw [ih, List.replicate_succ, List.flatten_cons, List.append_assoc]

theorem Client.do_ack_closed (w : List Byte) (cmd : Nat) (payload : List Byte)
    (hp : payload.length < 2147483648) :
    Client.do_ack ⟨[], w⟩ cmd payload = ⟨[], w ++ (be32 cmd ++ (be32 payload.length ++ payload))⟩ := by
  have hr : Client.recv_tlv [] 0 [] = ⟨false, 0, [], []⟩ := by decide
  unfold Client.do_ack
  simp only [hr, Client.send_tlv_wire w cmd payload hp]

/-! ## Decoders on truncated streams -/

theorem resize_nil (n : Nat) : resize [] n = List.replicate n 0 := by
  unfold resize
  rw [List.take_nil, List.nil_append, List.length_nil, Nat.sub_zero]

/-- When the stream closes after fewer than 8 header bytes, or after a complete
header that declares `L` bytes and fewer than `L` payload bytes, the client's
`recv_tlv` returns `false` for every 32-bit `L`, and the server's
`recv_message` returns `false` when `L < 2^31`, having taken only the bytes
that were delivered. -/
theorem decoders_on_truncated_stream (sock : Sock) (ty0 : Nat) (pl0 : List Byte) (t L : Nat)
    (part : List Byte)
    (hcut : (delivered sock).length < 8
      ∨ (L < 4294967296 ∧ part.length < L ∧ delivered sock = be32 t ++ (be32 L ++ part))) :
    (Client.recv_tlv sock ty0 pl0).ok = false
      ∧ ((delivered sock).length < 8 ∨ L < 2147483648 →
          (Server.recv_message sock ty0 pl0).ok = false
            ∧ delivered (Server.recv_message sock ty0 pl0).rest = []) := by
  rcases hcut with h | ⟨hL, hlt, hd⟩
  · exact ⟨(Client.recv_tlv_short sock ty0 pl0 h).1,
      fun _ => Server.recv_message_short sock ty0 pl0 h⟩
  · constructor
    · rcases Nat.lt_or_ge L 2147483648 with h1 | h1
      · exact (Client.recv_tlv_cut sock ty0 pl0 t L part h1 hlt hd).1
      · exact Client.recv_tlv_huge sock t L part ty0 pl0 h1 hL hd
    · intro h
      rcases h with h | h
      · exact Server.recv_message_short sock ty0 pl0 h
      · exact Server.recv_message_cut sock ty0 pl0 t L part h hlt hd

/-! ## Claims about the frame codec -/

/-- C1 (amended): for every 32-bit type tag and every payload of fewer than
`2^31` bytes, both encoders write the 4-byte big-endian type, the 4-byte
big-endian length and the payload (`8 + length` bytes), and on any socket that
delivers these bytes followed by `tail`, in whatever segments, the peer's
decoder returns exactly `(type, payload)` and leaves exactly `tail` unread. -/
theorem frame_round_trip (t : Nat) (p tail : List Byte) (sock : Sock) (ty0 : Nat)
    (pl0 : List Byte) (ht : t < 4294967296) (hp : p.length < 2147483648)
    (hd : delivered sock = (Server.send_message [] t p).2 ++ tail) :
    Server.send_message [] t p = (true, be32 t ++ (be32 p.length ++ p))
      ∧ Client.send_tlv [] t p = (true, be32 t ++ (be32 p.length ++ p))
      ∧ (be32 t ++ (be32 p.length ++ p)).length = 8 + p.length
      ∧ (∃ rest, Server.recv_message sock ty0 pl0 = ⟨true, t, p, rest⟩
          ∧ delivered rest = tail)
      ∧ (∃ rest, Client.recv_tlv sock ty0 pl0 = ⟨true, t, p, rest⟩
          ∧ delivered rest = tail) := by
  have hs := Server.send_message_wire [] t p hp
  have hc := Client.send_tlv_wire [] t p hp
  rw [List.nil_append] at hs hc
  have hd2 : delivered sock = be32 t ++ (be32 p.length ++ (p ++ tail)) := by
    rw [hd, hs]; simp
  refine ⟨hs, hc, ?_, Server.recv_message_frame sock t p tail ty0 pl0 ht hp hd2,
    Client.recv_tlv_frame sock t p tail ty0 pl0 ht hp hd2⟩
  simp only [List.length_append, be32_length]
  omega

/-- C1 witness: the frame `(5, [1, 2, 3])` delivered in three segments and
followed by one more byte. -/
theorem frame_round_trip_witness :
    Server.send_message [] 5 [1, 2, 3] = (true, be32 5 ++ (be32 3 ++ [1, 2, 3]))
      ∧ Client.send_tlv [] 5 [1, 2, 3] = (true, be32 5 ++ (be32 3 ++ [1, 2, 3]))
      ∧ (be32 5 ++ (be32 3 ++ [1, 2, 3])).length = 8 + 3
      ∧ (∃ rest, Server.recv_message [[0, 0, 0, 5, 0], [0, 0, 3, 1, 2], [3, 9]] 7 [4]
            = ⟨true, 5, [1, 2, 3], rest⟩ ∧ delivered rest = [9])
      ∧ (∃ rest, Client.recv_tlv [[0, 0, 0, 5, 0], [0, 0, 3, 1, 2], [3, 9]] 7 [4]
            = ⟨true, 5, [1, 2, 3], rest⟩ ∧ delivered rest = [9]) :=
  frame_round_trip 5 [1, 2, 3] [9] [[0, 0, 0, 5, 0], [0, 0, 3, 1, 2], [3, 9]] 7 [4]
    (by decide) (by decide) (by decide)

/-- C1 counterexample: for the payload of `2^31` one-bytes both encoders write
the 8 header bytes and no payload byte; the client decoder fails on that
stream and the server decoder returns a payload different from the one sent. -/
theorem frame_round_trip_counterexample :
    (Server.send_message [] 2 (List.replicate 2147483648 1)).2
        = be32 2 ++ be32 2147483648
      ∧ (Client.send_tlv [] 2 (List.replicate 2147483648 1)).2
        = be32 2 ++ be32 2147483648
      ∧ (Client.recv_tlv [(Server.send_message [] 2 (List.replicate 2147483648 1)).2]
          0 []).ok = false
      ∧ (Server.recv_message [(Client.send_tlv [] 2 (List.replicate 2147483648 1)).2]
          0 []).out_payload ≠ List.replicate 2147483648 1 := by
  have hlen : (List.replicate 2147483648 (1 : Byte)).length = 2147483648 :=
    List.length_replicate _ _
  have hs := Server.send_message_huge [] 2 (List.replicate 2147483648 (1 : Byte))
    (by rw [hlen]) (by rw [hlen]; decide)
  have hc := Client.send_tlv_huge [] 2 (List.replicate 2147483648 (1 : Byte))
    (by rw [hlen]) (by rw [hlen]; decide)
  rw [hlen, List.nil_append] at hs hc
  have hd : delivered [be32 2 ++ be32 2147483648]
      = be32 2 ++ (be32 2147483648 ++ []) := by
    rw [delivered_single, List.append_nil]
  refine ⟨by rw [hs], hc, ?_, ?_⟩
  · rw [hs]
    exact Client.recv_tlv_huge _ 2 2147483648 [] 0 [] (by decide) (by decide) hd
  · rw [hc]
    obtain ⟨rest, e, _⟩ := Server.recv_message_huge _ 2 2147483648 [] 0 [] (by decide)
      (by decide) (by decide) hd
    rw [e]
    exact resize_nil_ne_ones 2147483648 (by decide)

/-- C6 (the code at the failing input): the stream delivers a complete header
that declares `2^31` payload bytes and then closes with no payload byte.  The
server's `recv_message` returns `true`, with a payload buffer of `2^31` zero
bytes none of which was received, while the client's `recv_tlv` returns `false`
on the same stream. -/
theorem truncated_frame_accepted_by_server :
    delivered [be32 2 ++ be32 2147483648] = be32 2 ++ (be32 2147483648 ++ [])
      ∧ ([] : List Byte).length < 2147483648
      ∧ (Server.recv_message [be32 2 ++ be32 2147483648] 0 []).ok = true
      ∧ (Server.recv_message [be32 2 ++ be32 2147483648] 0 []).out_payload
          = List.replicate 2147483648 0
      ∧ (Client.recv_tlv [be32 2 ++ be32 2147483648] 0 []).ok = false := by
  have hd : delivered [be32 2 ++ be32 2147483648]
      = be32 2 ++ (be32 2147483648 ++ []) := by
    rw [delivered_single, List.append_nil]
  obtain ⟨rest, e, _⟩ := Server.recv_message_huge _ 2 2147483648 [] 0 [] (by decide)
    (by decide) (by decide) hd
  refine ⟨hd, by decide, by rw [e], ?_,
    Client.recv_tlv_huge _ 2 2147483648 [] 0 [] (by decide) (by decide) hd⟩
  rw [e]
  exact resize_nil 2147483648

/-! ## Claims about the kernel -/

/-- C2 (amended): for every `N` with `N * N` representable as an `int`, every
worker count `W` and every matrix of `N * N` entries, the kernel returns a
matrix of the same size in which the cell `(i, N-1-i)` of every row `i` holds
the product of the `N` original entries of row `i`, accumulated in 64 bits and
truncated to 32 bits, and every cell off the anti-diagonal is unchanged; the
matrix `[[1,2,3],[4,5,6],[7,8,9]]` becomes `[[1,2,6],[4,120,6],[504,8,9]]`. -/
theorem diagonal_correct (N : Nat) (W : Int) (m : List Int) (hNN : N * N < 2147483648)
    (hm : m.length = N * N) :
    (∃ m1, Server.place_secondary_diagonal m N W = some m1 ∧ m1.length = N * N
      ∧ (∀ i, i < N → m1[i * N + (N - 1 - i)]? = some (i32 (prod64 (row m N i))))
      ∧ (∀ i j, i < N → j < N → j ≠ N - 1 - i → m1[i * N + j]? = m[i * N + j]?))
    ∧ Server.place_secondary_diagonal [1, 2, 3, 4, 5, 6, 7, 8, 9] 3 W
        = some [1, 2, 6, 4, 120, 6, 504, 8, 9] := by
  constructor
  · obtain ⟨m1, e, l, a, b⟩ := Server.worker_loop_spec N hNN N 0 m hm (by omega)
    refine ⟨m1, ?_, l, fun i hi => a i (by omega) (by omega), ?_⟩
    · rw [Server.place_secondary_diagonal_seq m N W (by omega), Int.toNat_ofNat]
      exact_mod_cast e
    · intro i j hi hj hne
      apply b
      intro r _ hr heq
      rcases Nat.lt_trichotomy i r with h | h | h
      · have := rows_apart N i r h
        omega
      · subst h
        omega
      · have := rows_apart N r i h
        omega
  · rw [Server.place_secondary_diagonal_seq _ 3 W (by decide)]
    decide

/-- C2 witness: the `3 × 3` matrix of the spec with two workers. -/
theorem diagonal_correct_witness :
    (∃ m1, Server.place_secondary_diagonal [1, 2, 3, 4, 5, 6, 7, 8, 9] (3 : Nat) 2 = some m1
      ∧ m1.length = 3 * 3
      ∧ (∀ i, i < 3 → m1[i * 3 + (3 - 1 - i)]?
          = some (i32 (prod64 (row [1, 2, 3, 4, 5, 6, 7, 8, 9] 3 i))))
      ∧ (∀ i j, i < 3 → j < 3 → j ≠ 3 - 1 - i →
          m1[i * 3 + j]? = [1, 2, 3, 4, 5, 6, 7, 8, 9][i * 3 + j]?))
    ∧ Server.place_secondary_diagonal [1, 2, 3, 4, 5, 6, 7, 8, 9] 3 2
        = some [1, 2, 6, 4, 120, 6, 504, 8, 9] :=
  diagonal_correct 3 2 [1, 2, 3, 4, 5, 6, 7, 8, 9] (by decide) (by decide)

/-- C2 counterexample: for `N = 46341` (so that `N * N` exceeds `INT_MAX`) and
the all-ones matrix of `N * N` entries the index `i * N + j` leaves the `int`
range in the last row and the kernel has no defined result. -/
theorem diagonal_correct_counterexample :
    (List.replicate 2147488281 (1 : Int)).length = 46341 * 46341
      ∧ Server.place_secondary_diagonal (List.replicate 2147488281 1) 46341 1 = none := by
  refine ⟨by rw [List.length_replicate], ?_⟩
  rw [Server.place_secondary_diagonal_seq _ 46341 1 (by decide)]
  exact Server.worker_loop_overflow 46341 (by decide) (by decide) _

/-- C3: for `N ≥ 1` and every requested worker count `W` (in particular every
`W ≥ 1`) the kernel builds `workers` blocks with
`1 ≤ workers ≤ N`; block `t` is `[t * (N / workers), (t + 1) * (N / workers))`
for `t < workers - 1` and the last one ends at `N`; the blocks are contiguous
from `0` to `N`; every row index in `0..N-1` lies in exactly one block and no
other index lies in any; and the anti-diagonal cells of distinct rows are
distinct. -/
theorem partition_exhaustive_disjoint (N W : Int) (hN : 1 ≤ N) :
    1 ≤ Server.workers N W ∧ Server.workers N W ≤ N
      ∧ (Server.blocks N W).length = (Server.workers N W).toNat
      ∧ (∀ t : Nat, (t : Int) < Server.workers N W →
          (Server.blocks N W)[t]?
            = some ((t : Int) * Int.tdiv N (Server.workers N W),
                if (t : Int) + 1 < Server.workers N W
                then ((t : Int) + 1) * Int.tdiv N (Server.workers N W) else N))
      ∧ chained 0 (Server.blocks N W) N
      ∧ (∀ i : Int, (Server.blocks N W).countP (fun b => decide (b.1 ≤ i ∧ i < b.2))
          = if 0 ≤ i ∧ i < N then 1 else 0)
      ∧ (∀ i j : Int, 0 ≤ i → i < N → 0 ≤ j → j < N → i ≠ j →
          i * N + (N - 1 - i) ≠ j * N + (N - 1 - j)) := by
  exact ⟨Server.workers_pos N W, Server.workers_le N W hN, Server.blocks_length N W,
    fun t ht => Server.blocks_getElem? N W t ht,
    Server.blocks_chained N W (by omega),
    chained_count _ _ _ (Server.blocks_chained N W (by omega)),
    fun i j hi0 hi hj0 hj hne => antidiag_injective N i j hi0 hi hj0 hj hne⟩

/-- C3 witness: seven rows and three requested workers give the blocks
`[0,2)`, `[2,4)`, `[4,7)`. -/
theorem partition_exhaustive_disjoint_witness :
    1 ≤ Server.workers 7 3 ∧ Server.workers 7 3 ≤ 7
      ∧ (Server.blocks 7 3).length = (Server.workers 7 3).toNat
      ∧ (∀ t : Nat, (t : Int) < Server.workers 7 3 →
          (Server.blocks 7 3)[t]?
            = some ((t : Int) * Int.tdiv 7 (Server.workers 7 3),
                if (t : Int) + 1 < Server.workers 7 3
                then ((t : Int) + 1) * Int.tdiv 7 (Server.workers 7 3) else 7))
      ∧ chained 0 (Server.blocks 7 3) 7
      ∧ (∀ i : Int, (Server.blocks 7 3).countP (fun b => decide (b.1 ≤ i ∧ i < b.2))
          = if 0 ≤ i ∧ i < 7 then 1 else 0)
      ∧ (∀ i j : Int, 0 ≤ i → i < 7 → 0 ≤ j → j < 7 → i ≠ j →
          i * 7 + (7 - 1 - i) ≠ j * 7 + (7 - 1 - j)) :=
  partition_exhaustive_disjoint 7 3 (by decide)

/-! ## Claims about the session loop -/

/-- C4: for every `N ≥ 0` with `N * N` representable, every worker count `W`
and every DATA payload of `4 * N * N` bytes, the fresh session that handles
CONFIG(N, W), DATA, COMPUTE, STATUS, RESULT replies with the empty CONFIG, DATA
and COMPUTE acknowledgements, a STATUS frame whose single payload byte is `2`
(on which the client's poll loop exits), and a RESULT frame with a 16-byte
payload whose first two big-endian fields are `N` and `W`. -/
theorem happy_path_session (N : Nat) (W : Int) (data p3 p4 p5 : List Byte)
    (e1 e2 e3 e4 e5 : Nat) (hNN : N * N < 2147483648) (hW1 : -2147483648 ≤ W)
    (hW2 : W < 2147483648) (hdata : data.length = 4 * (N * N)) :
    ∃ s, Server.handle_client Server.Session.init
          [⟨TLV_CONFIG, Client.config_payload N W, e1⟩, ⟨TLV_DATA, data, e2⟩,
            ⟨TLV_COMPUTE, p3, e3⟩, ⟨TLV_STATUS, p4, e4⟩, ⟨TLV_RESULT, p5, e5⟩]
        = some (s, [be32 1 ++ be32 0, be32 2 ++ be32 0, be32 3 ++ be32 0,
            be32 4 ++ (be32 1 ++ [2]), be32 5 ++ (be32 16 ++ Server.result_payload s)])
      ∧ Client.poll_done (Client.recv_tlv [be32 4 ++ (be32 1 ++ [2])] 0 []).out_type
          (Client.recv_tlv [be32 4 ++ (be32 1 ++ [2])] 0 []).out_payload = true
      ∧ (Server.result_payload s).length = 16
      ∧ be32_at (Server.result_payload s) 0 = N
      ∧ be32_at (Server.result_payload s) 4 = u32 W
      ∧ Client.result_fields (Server.result_payload s) = ((N : Int), W) := by
  have hN1 : (-2147483648 : Int) ≤ (N : Int) := by omega
  have hN2 : (N : Int) < 2147483648 := by
    have : N ≤ N * N := Nat.le_mul_self N
    omega
  have hcfg := Client.config_payload_eq (N : Int) W
  have a0 : i32 (be32_at (Client.config_payload N W) 0) = (N : Int) := by
    rw [hcfg, be32_at_be32_0, Nat.mod_eq_of_lt (u32_lt _), i32_u32 _ hN1 hN2]
  have a4 : i32 (be32_at (Client.config_payload N W) 4) = W := by
    rw [hcfg, be32_at_be32_4, Nat.mod_eq_of_lt (u32_lt _), i32_u32 _ hW1 hW2]
  have h1 := Server.handle_config Server.Session.init e1 (Client.config_payload N W)
    (by rw [hcfg]; simp [be32])
  rw [a0, a4] at h1
  have h1 : Server.handle_message Server.Session.init e1 TLV_CONFIG (Client.config_payload N W)
      = some (Server.Session.mk (N : Int) W [] false false 0, be32 1 ++ be32 0) := h1
  have hsq : ((N : Int) * (N : Int)).toNat = N * N := by
    rw [← Nat.cast_mul, Int.toNat_ofNat]
  have h2 := Server.handle_data
    (Server.Session.mk (N : Int) W [] false false 0) e2 data
    (by show (N : Int) * (N : Int) < 2147483648; exact_mod_cast hNN)
    (by show 4 * ((N : Int) * (N : Int)).toNat ≤ data.length; rw [hsq, hdata])
  have h2 : Server.handle_message (Server.Session.mk (N : Int) W [] false false 0) e2 TLV_DATA
      data = some (Server.Session.mk (N : Int) W
        (Server.data_loop data ((N : Int) * (N : Int)).toNat 0
          (Server.resize_matrix [] ((N : Int) * (N : Int)).toNat)) true false 0,
        be32 2 ++ be32 0) := h2
  obtain ⟨m1, hk, _⟩ := Server.kernel_total N W
    (Server.data_loop data ((N : Int) * (N : Int)).toNat 0
      (Server.resize_matrix [] ((N : Int) * (N : Int)).toNat)) hNN
    (by rw [Server.data_loop_length, Server.resize_matrix_length, hsq])
  have h3 := Server.handle_compute_loaded
    (Server.Session.mk (N : Int) W
      (Server.data_loop data ((N : Int) * (N : Int)).toNat 0
        (Server.resize_matrix [] ((N : Int) * (N : Int)).toNat)) true false 0) e3 p3 m1 rfl hk
  have h3 : Server.handle_message (Server.Session.mk (N : Int) W
        (Server.data_loop data ((N : Int) * (N : Int)).toNat 0
          (Server.resize_matrix [] ((N : Int) * (N : Int)).toNat)) true false 0) e3 TLV_COMPUTE p3
      = some (Server.Session.mk (N : Int) W m1 true true e3, be32 3 ++ be32 0) := h3
  have h4 := Server.handle_status
    (Server.Session.mk (N : Int) W m1 true true e3) e4 p4
  have h5 := Server.handle_result_done
    (Server.Session.mk (N : Int) W m1 true true e3) e5 p5 rfl
  refine ⟨Server.Session.mk (N : Int) W m1 true true e3, ?_, by decide, rfl, ?_, ?_, ?_⟩
  · rw [Server.handle_client_cons _ _ ⟨TLV_CONFIG, Client.config_payload N W, e1⟩ _ _ h1,
      Server.handle_client_cons _ _ ⟨TLV_DATA, data, e2⟩ _ _ h2,
      Server.handle_client_cons _ _ ⟨TLV_COMPUTE, p3, e3⟩ _ _ h3,
      Server.handle_client_cons _ _ ⟨TLV_STATUS, p4, e4⟩ _ _ h4,
      Server.handle_client_cons _ _ ⟨TLV_RESULT, p5, e5⟩ _ _ h5]
    rfl
  · rw [Server.result_payload_eq, be32_at_be32_0]
    show u32 (N : Int) % 4294967296 = N
    unfold u32
    omega
  · rw [Server.result_payload_eq, be32_at_be32_4]
    exact Nat.mod_eq_of_lt (u32_lt _)
  · unfold Client.result_fields
    rw [ntohl_load32, ntohl_load32, Server.result_payload_eq, be32_at_be32_0, be32_at_be32_4,
      Nat.mod_eq_of_lt (u32_lt _), Nat.mod_eq_of_lt (u32_lt _)]
    show (i32 ((u32 (N : Int) : Nat) : Int), i32 ((u32 W : Nat) : Int)) = ((N : Int), W)
    rw [i32_u32 _ hN1 hN2, i32_u32 _ hW1 hW2]

/-- C4 witness: `N = 2`, `W = 3` and the matrix `[[1, 2], [3, 4]]`. -/
theorem happy_path_session_witness :
    ∃ s, Server.handle_client Server.Session.init
          [⟨TLV_CONFIG, Client.config_payload (2 : Nat) 3, 0⟩,
            ⟨TLV_DATA, [0, 0, 0, 1, 0, 0, 0, 2, 0, 0, 0, 3, 0, 0, 0, 4], 0⟩,
            ⟨TLV_COMPUTE, [], 7⟩, ⟨TLV_STATUS, [], 0⟩, ⟨TLV_RESULT, [], 0⟩]
        = some (s, [be32 1 ++ be32 0, be32 2 ++ be32 0, be32 3 ++ be32 0,
            be32 4 ++ (be32 1 ++ [2]), be32 5 ++ (be32 16 ++ Server.result_payload s)])
      ∧ Client.poll_done (Client.recv_tlv [be32 4 ++ (be32 1 ++ [2])] 0 []).out_type
          (Client.recv_tlv [be32 4 ++ (be32 1 ++ [2])] 0 []).out_payload = true
      ∧ (Server.result_payload s).length = 16
      ∧ be32_at (Server.result_payload s) 0 = 2
      ∧ be32_at (Server.result_payload s) 4 = u32 3
      ∧ Client.result_fields (Server.result_payload s) = (((2 : Nat) : Int), 3) :=
  happy_path_session 2 3 [0, 0, 0, 1, 0, 0, 0, 2, 0, 0, 0, 3, 0, 0, 0, 4] [] [] [] 0 0 7 0 0
    (by decide) (by decide) (by decide) (by decide)

/-- C5: in every session state reachable without a COMPUTE handled while data
was loaded, a RESULT request is answered with the frame of type ERROR (255)
and length 0, the locals are unchanged, and the loop goes on with the next
messages from the same state. -/
theorem result_before_compute (s : Server.Session) (h : ReachableNoCompute s) (e : Nat)
    (p : List Byte) (ms : List Server.Msg) :
    Server.handle_message s e TLV_RESULT p = some (s, be32 255 ++ be32 0)
      ∧ Server.handle_client s (⟨TLV_RESULT, p, e⟩ :: ms)
          = (Server.handle_client s ms).map fun r => (r.1, (be32 255 ++ be32 0) :: r.2) := by
  have hr := Server.handle_result_early s e p (reachableNoCompute_computed s h)
  exact ⟨hr, Server.handle_client_cons s s ⟨TLV_RESULT, p, e⟩ ms _ hr⟩

/-- C5 witness: the session after CONFIG(2, 1) and a DATA upload, asked for
RESULT and then for STATUS. -/
theorem result_before_compute_witness :
    Server.handle_message
        ⟨2, 1, [1, 2, 3, 4], true, false, 0⟩ 0 TLV_RESULT []
        = some (⟨2, 1, [1, 2, 3, 4], true, false, 0⟩, be32 255 ++ be32 0)
      ∧ Server.handle_client ⟨2, 1, [1, 2, 3, 4], true, false, 0⟩
          (⟨TLV_RESULT, [], 0⟩ :: [⟨TLV_STATUS, [], 0⟩])
          = (Server.handle_client ⟨2, 1, [1, 2, 3, 4], true, false, 0⟩
              [⟨TLV_STATUS, [], 0⟩]).map fun r => (r.1, (be32 255 ++ be32 0) :: r.2) :=
  result_before_compute ⟨2, 1, [1, 2, 3, 4], true, false, 0⟩
    (ReachableNoCompute.step ⟨2, 1, [], false, false, 0⟩ _ 0 TLV_DATA
      [0, 0, 0, 1, 0, 0, 0, 2, 0, 0, 0, 3, 0, 0, 0, 4] (be32 2 ++ be32 0)
      (ReachableNoCompute.step Server.Session.init _ 0 TLV_CONFIG
        (Client.config_payload 2 1) (be32 1 ++ be32 0) ReachableNoCompute.init
        (by decide) (by decide))
      (by decide) (by decide))
    0 [] [⟨TLV_STATUS, [], 0⟩]

/-- C7 (amended): after any message history handled from the initial locals, a
STATUS request leaves the locals unchanged and is answered with a STATUS frame
whose payload is one byte: `2` if some COMPUTE was handled while data was
loaded, else `1` if some DATA was handled, else `0` (so `0` also when only
CONFIG messages were received). -/
theorem status_mapping (ms : List Server.Msg) (s : Server.Session)
    (outs : List (List Byte)) (e : Nat) (p : List Byte)
    (h : Server.handle_client Server.Session.init ms = some (s, outs)) :
    Server.handle_message s e TLV_STATUS p
      = some (s, be32 4 ++ (be32 1 ++
          [if didCompute false ms then 2 else if sawData ms then 1 else 0])) := by
  obtain ⟨f1, f2⟩ := Server.handle_client_flags ms Server.Session.init s outs h
  have g1 : s.has_data = sawData ms := by rw [f1]; rfl
  have g2 : s.computed = didCompute false ms := by rw [f2]; rfl
  rw [Server.handle_status, g1, g2]

/-- C7 witness: the history CONFIG(2, 1), DATA, COMPUTE. -/
theorem status_mapping_witness :
    Server.handle_message ⟨2, 1, [1, 2, 12, 4], true, true, 7⟩ 0 TLV_STATUS []
      = some (⟨2, 1, [1, 2, 12, 4], true, true, 7⟩, be32 4 ++ (be32 1 ++
          [if didCompute false
              [⟨TLV_CONFIG, Client.config_payload 2 1, 0⟩,
                ⟨TLV_DATA, [0, 0, 0, 1, 0, 0, 0, 2, 0, 0, 0, 3, 0, 0, 0, 4], 0⟩,
                ⟨TLV_COMPUTE, [], 7⟩] then 2
            else if sawData
              [⟨TLV_CONFIG, Client.config_payload 2 1, 0⟩,
                ⟨TLV_DATA, [0, 0, 0, 1, 0, 0, 0, 2, 0, 0, 0, 3, 0, 0, 0, 4], 0⟩,
                ⟨TLV_COMPUTE, [], 7⟩] then 1 else 0])) :=
  status_mapping
    [⟨TLV_CONFIG, Client.config_payload 2 1, 0⟩,
      ⟨TLV_DATA, [0, 0, 0, 1, 0, 0, 0, 2, 0, 0, 0, 3, 0, 0, 0, 4], 0⟩,
      ⟨TLV_COMPUTE, [], 7⟩]
    ⟨2, 1, [1, 2, 12, 4], true, true, 7⟩
    [be32 1 ++ be32 0, be32 2 ++ be32 0, be32 3 ++ be32 0] 0 [] (by decide)

/-- C7 counterexample: after CONFIG(2, 1) alone (CONFIG received, no DATA yet)
the STATUS reply carries the byte `0`, not `1`. -/
theorem status_mapping_counterexample :
    Server.handle_client Server.Session.init
        [⟨TLV_CONFIG, Client.config_payload 2 1, 0⟩, ⟨TLV_STATUS, [], 0⟩]
        = some (⟨2, 1, [], false, false, 0⟩,
            [be32 1 ++ be32 0, be32 4 ++ (be32 1 ++ [0])])
      ∧ be32 4 ++ (be32 1 ++ [(0 : Byte)]) ≠ be32 4 ++ (be32 1 ++ [1]) := by
  decide

/-- C8 (amended): for every session state and every CONFIG message with an
8-byte payload, afterwards `N` and `thread_count` are the two big-endian 32-bit
integers of the payload (read as `int`) and the reply is the empty frame of
type CONFIG; a session without data and without a completed compute is so
afterwards too; and if no compute had completed before, a following RESULT is
answered with ERROR and a following STATUS byte is not `2`. -/
theorem config_sets_parameters (s : Server.Session) (e : Nat) (p : List Byte)
    (hp : p.length = 8) :
    ∃ s1, Server.handle_message s e TLV_CONFIG p = some (s1, be32 1 ++ be32 0)
      ∧ s1.N = i32 (be32_at p 0) ∧ s1.thread_count = i32 (be32_at p 4)
      ∧ (s.has_data = false → s.computed = false →
          s1.has_data = false ∧ s1.computed = false)
      ∧ (s.computed = false → ∀ (e2 : Nat) (p2 : List Byte),
          Server.handle_message s1 e2 TLV_RESULT p2 = some (s1, be32 255 ++ be32 0)
            ∧ ∃ b, Server.handle_message s1 e2 TLV_STATUS p2
                = some (s1, be32 4 ++ (be32 1 ++ [b])) ∧ b ≠ 2) := by
  refine ⟨_, Server.handle_config s e p (by omega), rfl, rfl, fun h1 h2 => ⟨h1, h2⟩, ?_⟩
  intro hc e2 p2
  refine ⟨Server.handle_result_early _ e2 p2 hc, _, Server.handle_status _ e2 p2, ?_⟩
  show (if s.computed = true then (2 : Byte) else if s.has_data = true then 1 else 0) ≠ 2
  rw [hc]
  cases s.has_data <;> decide

/-- C8 witness: CONFIG(3, 2) handled by a session that holds an uploaded
matrix. -/
theorem config_sets_parameters_witness :
    ∃ s1, Server.handle_message ⟨2, 1, [1, 2, 3, 4], true, false, 0⟩ 0 TLV_CONFIG
          (Client.config_payload 3 2) = some (s1, be32 1 ++ be32 0)
      ∧ s1.N = i32 (be32_at (Client.config_payload 3 2) 0)
      ∧ s1.thread_count = i32 (be32_at (Client.config_payload 3 2) 4)
      ∧ ((⟨2, 1, [1, 2, 3, 4], true, false, 0⟩ : Server.Session).has_data = false →
          (⟨2, 1, [1, 2, 3, 4], true, false, 0⟩ : Server.Session).computed = false →
          s1.has_data = false ∧ s1.computed = false)
      ∧ ((⟨2, 1, [1, 2, 3, 4], true, false, 0⟩ : Server.Session).computed = false →
          ∀ (e2 : Nat) (p2 : List Byte),
          Server.handle_message s1 e2 TLV_RESULT p2 = some (s1, be32 255 ++ be32 0)
            ∧ ∃ b, Server.handle_message s1 e2 TLV_STATUS p2
                = some (s1, be32 4 ++ (be32 1 ++ [b])) ∧ b ≠ 2) :=
  config_sets_parameters ⟨2, 1, [1, 2, 3, 4], true, false, 0⟩ 0 (Client.config_payload 3 2)
    (by decide)

/-- C8 counterexample: after CONFIG, DATA, COMPUTE a second CONFIG is handled;
the following STATUS is answered with byte `2` and the following RESULT with a
RESULT frame, not with ERROR. -/
theorem config_sets_parameters_counterexample :
    Server.handle_client Server.Session.init
        [⟨TLV_CONFIG, Client.config_payload 1 1, 0⟩, ⟨TLV_DATA, [0, 0, 0, 5], 0⟩,
          ⟨TLV_COMPUTE, [], 0⟩, ⟨TLV_CONFIG, Client.config_payload 1 1, 0⟩,
          ⟨TLV_STATUS, [], 0⟩, ⟨TLV_RESULT, [], 0⟩]
      = some (⟨1, 1, [5], true, true, 0⟩,
          [be32 1 ++ be32 0, be32 2 ++ be32 0, be32 3 ++ be32 0, be32 1 ++ be32 0,
            be32 4 ++ (be32 1 ++ [2]),
            be32 5 ++ (be32 16 ++ (be32 1 ++ (be32 1 ++ (be32 0 ++ be32 0))))]) := by
  decide

/-- C9 (amended): for every session state and every DATA message whose payload
(fewer than `2^32` bytes, as every frame) has `4 * N * N` bytes for the current
`N`, afterwards data is loaded, the matrix has `N * N` entries and the reply is
the empty frame of type DATA; if no compute had completed before, a following
STATUS is answered with byte `1` and a following RESULT with ERROR. -/
theorem data_sets_loaded (s : Server.Session) (e : Nat) (p : List Byte)
    (hp : (p.length : Int) = 4 * (s.N * s.N)) (hlen : p.length < 4294967296) :
    ∃ s1, Server.handle_message s e TLV_DATA p = some (s1, be32 2 ++ be32 0)
      ∧ s1.has_data = true ∧ s1.N = s.N ∧ (s1.matrix.length : Int) = s.N * s.N
      ∧ (s.computed = false → ∀ (e2 : Nat) (p2 : List Byte),
          Server.handle_message s1 e2 TLV_STATUS p2
              = some (s1, be32 4 ++ (be32 1 ++ [1]))
            ∧ Server.handle_message s1 e2 TLV_RESULT p2
              = some (s1, be32 255 ++ be32 0)) := by
  have h0 : 0 ≤ s.N * s.N := mul_self_nonneg s.N
  refine ⟨_, Server.handle_data s e p (by omega) (by omega), rfl, rfl, ?_, ?_⟩
  · show ((Server.data_loop p (s.N * s.N).toNat 0
        (Server.resize_matrix s.matrix (s.N * s.N).toNat)).length : Int) = s.N * s.N
    rw [Server.data_loop_length, Server.resize_matrix_length]
    omega
  · intro hc e2 p2
    refine ⟨?_, Server.handle_result_early _ e2 p2 hc⟩
    rw [Server.handle_status]
    show some (_, be32 4 ++ (be32 1 ++
      [if s.computed = true then (2 : Byte) else if true = true then 1 else 0])) = _
    rw [hc]
    rfl

/-- C9 witness: a 16-byte DATA payload handled after CONFIG(2, 1). -/
theorem data_sets_loaded_witness :
    ∃ s1, Server.handle_message ⟨2, 1, [], false, false, 0⟩ 0 TLV_DATA
          [0, 0, 0, 1, 0, 0, 0, 2, 0, 0, 0, 3, 0, 0, 0, 4] = some (s1, be32 2 ++ be32 0)
      ∧ s1.has_data = true ∧ s1.N = (⟨2, 1, [], false, false, 0⟩ : Server.Session).N
      ∧ (s1.matrix.length : Int)
          = (⟨2, 1, [], false, false, 0⟩ : Server.Session).N
            * (⟨2, 1, [], false, false, 0⟩ : Server.Session).N
      ∧ ((⟨2, 1, [], false, false, 0⟩ : Server.Session).computed = false →
          ∀ (e2 : Nat) (p2 : List Byte),
          Server.handle_message s1 e2 TLV_STATUS p2
              = some (s1, be32 4 ++ (be32 1 ++ [1]))
            ∧ Server.handle_message s1 e2 TLV_RESULT p2
              = some (s1, be32 255 ++ be32 0)) :=
  data_sets_loaded ⟨2, 1, [], false, false, 0⟩ 0
    [0, 0, 0, 1, 0, 0, 0, 2, 0, 0, 0, 3, 0, 0, 0, 4] (by decide) (by decide)

/-- C9 counterexample: after CONFIG, DATA, COMPUTE a second DATA is handled;
the following STATUS is answered with byte `2`, not `1`, and the following
RESULT with a RESULT frame, not with ERROR. -/
theorem data_sets_loaded_counterexample :
    Server.handle_client Server.Session.init
        [⟨TLV_CONFIG, Client.config_payload 1 1, 0⟩, ⟨TLV_DATA, [0, 0, 0, 5], 0⟩,
          ⟨TLV_COMPUTE, [], 0⟩, ⟨TLV_DATA, [0, 0, 0, 6], 0⟩,
          ⟨TLV_STATUS, [], 0⟩, ⟨TLV_RESULT, [], 0⟩]
      = some (⟨1, 1, [6], true, true, 0⟩,
          [be32 1 ++ be32 0, be32 2 ++ be32 0, be32 3 ++ be32 0, be32 2 ++ be32 0,
            be32 4 ++ (be32 1 ++ [2]),
            be32 5 ++ (be32 16 ++ (be32 1 ++ (be32 1 ++ (be32 0 ++ be32 0))))]) := by
  decide

/-- C10 (the code at the failing input): after CONFIG(2, 1), a 16-byte DATA
and CONFIG(3, 1) data is loaded, `N` is `3` and the matrix has `4` entries, not
`9`; a COMPUTE handled next indexes the matrix out of bounds. -/
theorem matrix_size_after_reconfig :
    Server.handle_client Server.Session.init
        [⟨TLV_CONFIG, Client.config_payload 2 1, 0⟩,
          ⟨TLV_DATA, [0, 0, 0, 1, 0, 0, 0, 2, 0, 0, 0, 3, 0, 0, 0, 4], 0⟩,
          ⟨TLV_CONFIG, Client.config_payload 3 1, 0⟩]
        = some (⟨3, 1, [1, 2, 3, 4], true, false, 0⟩,
            [be32 1 ++ be32 0, be32 2 ++ be32 0, be32 1 ++ be32 0])
      ∧ ([1, 2, 3, 4] : List Int).length ≠ 3 * 3
      ∧ Server.handle_message ⟨3, 1, [1, 2, 3, 4], true, false, 0⟩ 0 TLV_COMPUTE [] = none := by
  decide

/-! ## Claims about COMPUTE, unknown tags and the worker count -/

/-- C11: after any history handled from the initial locals, if no DATA message
was handled then COMPUTE changes no local (so the kernel is not run) and is
answered with the empty frame of type COMPUTE; if a DATA message was handled,
COMPUTE runs the kernel on the matrix with the current `N` and `thread_count`
and, with the matrix the kernel returns, the session is computed and the same
acknowledgement is sent (the kernel does return when the matrix has `N * N`
entries). -/
theorem compute_without_data (ms : List Server.Msg) (s : Server.Session)
    (outs : List (List Byte)) (e : Nat) (p : List Byte)
    (h : Server.handle_client Server.Session.init ms = some (s, outs)) :
    (sawData ms = false →
        Server.handle_message s e TLV_COMPUTE p = some (s, be32 3 ++ be32 0))
      ∧ (sawData ms = true →
        Server.handle_message s e TLV_COMPUTE p
          = (Server.place_secondary_diagonal s.matrix s.N s.thread_count).map fun m =>
              (Server.Session.mk s.N s.thread_count m true true e, be32 3 ++ be32 0))
      ∧ (sawData ms = true → 0 ≤ s.N → s.N * s.N < 2147483648 →
          (s.matrix.length : Int) = s.N * s.N →
          ∃ m, Server.handle_message s e TLV_COMPUTE p
            = some (Server.Session.mk s.N s.thread_count m true true e,
                be32 3 ++ be32 0)) := by
  obtain ⟨f1, _⟩ := Server.handle_client_flags ms Server.Session.init s outs h
  have g1 : s.has_data = sawData ms := by rw [f1]; rfl
  refine ⟨fun hs => Server.handle_compute_empty s e p (by rw [g1, hs]),
    fun hs => Server.handle_compute_map s e p (by rw [g1, hs]), ?_⟩
  intro hs h0 hNN hm
  obtain ⟨m1, e1, _⟩ := Server.kernel_total_int s.N s.thread_count s.matrix h0 hNN hm
  have hd : s.has_data = true := by rw [g1, hs]
  have hh := Server.handle_compute_loaded s e p m1 hd e1
  rw [hd] at hh
  exact ⟨m1, hh⟩

/-- C11 witness: COMPUTE right after CONFIG(3, 1), where the matrix is empty
(running the kernel on it would index out of bounds). -/
theorem compute_without_data_witness :
    (sawData [⟨TLV_CONFIG, Client.config_payload 3 1, 0⟩] = false →
        Server.handle_message ⟨3, 1, [], false, false, 0⟩ 9 TLV_COMPUTE []
          = some (⟨3, 1, [], false, false, 0⟩, be32 3 ++ be32 0))
      ∧ (sawData [⟨TLV_CONFIG, Client.config_payload 3 1, 0⟩] = true →
        Server.handle_message ⟨3, 1, [], false, false, 0⟩ 9 TLV_COMPUTE []
          = (Server.place_secondary_diagonal
              (⟨3, 1, [], false, false, 0⟩ : Server.Session).matrix
              (⟨3, 1, [], false, false, 0⟩ : Server.Session).N
              (⟨3, 1, [], false, false, 0⟩ : Server.Session).thread_count).map fun m =>
              (Server.Session.mk (⟨3, 1, [], false, false, 0⟩ : Server.Session).N
                (⟨3, 1, [], false, false, 0⟩ : Server.Session).thread_count m true true 9,
                be32 3 ++ be32 0))
      ∧ (sawData [⟨TLV_CONFIG, Client.config_payload 3 1, 0⟩] = true →
          0 ≤ (⟨3, 1, [], false, false, 0⟩ : Server.Session).N →
          (⟨3, 1, [], false, false, 0⟩ : Server.Session).N
            * (⟨3, 1, [], false, false, 0⟩ : Server.Session).N < 2147483648 →
          (((⟨3, 1, [], false, false, 0⟩ : Server.Session).matrix.length : Nat) : Int)
            = (⟨3, 1, [], false, false, 0⟩ : Server.Session).N
              * (⟨3, 1, [], false, false, 0⟩ : Server.Session).N →
          ∃ m, Server.handle_message ⟨3, 1, [], false, false, 0⟩ 9 TLV_COMPUTE []
            = some (Server.Session.mk (⟨3, 1, [], false, false, 0⟩ : Server.Session).N
                (⟨3, 1, [], false, false, 0⟩ : Server.Session).thread_count m true true 9,
                be32 3 ++ be32 0)) :=
  compute_without_data [⟨TLV_CONFIG, Client.config_payload 3 1, 0⟩]
    ⟨3, 1, [], false, false, 0⟩ [be32 1 ++ be32 0] 9 [] (by decide)

/-- C12: for every type tag other than 1, 2, 3, 4, 5 and every payload, in
every session state, the reply is the single frame of type ERROR (255) with
length 0, no local changes, and the loop goes on with the next messages from
the same state. -/
theorem unknown_type_error (s : Server.Session) (e t : Nat) (p : List Byte)
    (ms : List Server.Msg) (h1 : t ≠ 1) (h2 : t ≠ 2) (h3 : t ≠ 3) (h4 : t ≠ 4)
    (h5 : t ≠ 5) :
    Server.handle_message s e t p = some (s, be32 255 ++ be32 0)
      ∧ (be32 255 ++ be32 0 : List Byte) = [0, 0, 0, 255, 0, 0, 0, 0]
      ∧ Server.handle_client s (⟨t, p, e⟩ :: ms)
          = (Server.handle_client s ms).map fun r => (r.1, (be32 255 ++ be32 0) :: r.2) := by
  have hr := Server.handle_other s e t p h1 h2 h3 h4 h5
  exact ⟨hr, by decide, Server.handle_client_cons s s ⟨t, p, e⟩ ms _ hr⟩

/-- C12 witness: the tag 255 (ERROR itself) with a payload, in a computed
session, followed by a STATUS request. -/
theorem unknown_type_error_witness :
    Server.handle_message ⟨1, 1, [5], true, true, 0⟩ 0 255 [1, 2]
        = some (⟨1, 1, [5], true, true, 0⟩, be32 255 ++ be32 0)
      ∧ (be32 255 ++ be32 0 : List Byte) = [0, 0, 0, 255, 0, 0, 0, 0]
      ∧ Server.handle_client ⟨1, 1, [5], true, true, 0⟩
          (⟨255, [1, 2], 0⟩ :: [⟨TLV_STATUS, [], 0⟩])
          = (Server.handle_client ⟨1, 1, [5], true, true, 0⟩ [⟨TLV_STATUS, [], 0⟩]).map
              fun r => (r.1, (be32 255 ++ be32 0) :: r.2) :=
  unknown_type_error ⟨1, 1, [5], true, true, 0⟩ 0 255 [1, 2] [⟨TLV_STATUS, [], 0⟩]
    (by decide) (by decide) (by decide) (by decide) (by decide)

/-- C17: the number of blocks the kernel creates is `W` when `0 < W ≤ N` and
`1` otherwise; for `N ≥ 1` and `W ≥ 1` it lies in `[1, N]` and does not exceed
`min W N`. -/
theorem worker_count_clamp (N W : Int) :
    ((Server.blocks N W).length : Int) = (if 0 < W ∧ W ≤ N then W else 1)
      ∧ Server.workers N W = (if 0 < W ∧ W ≤ N then W else 1)
      ∧ (1 ≤ N → 1 ≤ W →
          1 ≤ ((Server.blocks N W).length : Int) ∧ ((Server.blocks N W).length : Int) ≤ N
            ∧ ((Server.blocks N W).length : Int) ≤ min W N) := by
  have hl : ((Server.blocks N W).length : Int) = Server.workers N W := by
    rw [Server.blocks_length]
    have := Server.workers_pos N W
    omega
  have hw : Server.workers N W = (if 0 < W ∧ W ≤ N then W else 1) := rfl
  refine ⟨by rw [hl, hw], hw, ?_⟩
  intro hN hW
  rw [hl, hw]
  by_cases c : 0 < W ∧ W ≤ N
  · rw [if_pos c]
    refine ⟨by omega, by omega, ?_⟩
    rw [min_eq_left c.2]
  · rw [if_neg c]
    exact ⟨le_refl 1, hN, le_min hW hN⟩

/-- C17 witness: `N = 7`; `W = 3` gives 3 blocks, `W = 9` gives 1 block. -/
theorem worker_count_clamp_witness :
    (((Server.blocks 7 3).length : Int) = (if (0 : Int) < 3 ∧ (3 : Int) ≤ 7 then 3 else 1)
      ∧ Server.workers 7 3 = (if (0 : Int) < 3 ∧ (3 : Int) ≤ 7 then 3 else 1)
      ∧ ((1 : Int) ≤ 7 → (1 : Int) ≤ 3 →
          1 ≤ ((Server.blocks 7 3).length : Int) ∧ ((Server.blocks 7 3).length : Int) ≤ 7
            ∧ ((Server.blocks 7 3).length : Int) ≤ min 3 7))
      ∧ (Server.blocks 7 9).length = 1 :=
  ⟨worker_count_clamp 7 3, by decide⟩

/-- C19: for every `N ≥ 0` with `N * N` representable, every worker count and
every matrix of exactly `N * N` entries, every index `i * N + j` the kernel
reads and every index `i * N + (N - 1 - i)` it writes lies in `[0, N * N)`;
the bounds-checked kernel therefore returns a matrix, again of `N * N`
entries, and so does the COMPUTE case that calls it. -/
theorem kernel_index_safe (N : Nat) (W : Int) (m : List Int) (hNN : N * N < 2147483648)
    (hm : m.length = N * N) :
    (∀ i j, i < N → j < N → i * N + j < N * N)
      ∧ (∀ i, i < N → i * N + (N - 1 - i) < N * N)
      ∧ (∃ m1, Server.place_secondary_diagonal m N W = some m1 ∧ m1.length = N * N)
      ∧ (∀ (e : Nat) (p : List Byte) (t : Nat) (c : Bool),
          ∃ m1, Server.handle_message ⟨N, W, m, true, c, t⟩ e TLV_COMPUTE p
            = some (⟨N, W, m1, true, true, e⟩, be32 3 ++ be32 0) ∧ m1.length = N * N) := by
  refine ⟨?_, ?_, Server.kernel_total N W m hNN hm, ?_⟩
  · intro i j hi hj
    have := row_bound N i hi
    omega
  · intro i hi
    have := row_bound N i hi
    omega
  · intro e p t c
    obtain ⟨m1, e1, l1⟩ := Server.kernel_total N W m hNN hm
    exact ⟨m1, Server.handle_compute_loaded ⟨N, W, m, true, c, t⟩ e p m1 rfl e1, l1⟩

/-- C19 witness: the `2 × 2` matrix `[[1, 2], [3, 4]]` with three requested
workers. -/
theorem kernel_index_safe_witness :
    (∀ i j, i < 2 → j < 2 → i * 2 + j < 2 * 2)
      ∧ (∀ i, i < 2 → i * 2 + (2 - 1 - i) < 2 * 2)
      ∧ (∃ m1, Server.place_secondary_diagonal [1, 2, 3, 4] (2 : Nat) 3 = some m1
          ∧ m1.length = 2 * 2)
      ∧ (∀ (e : Nat) (p : List Byte) (t : Nat) (c : Bool),
          ∃ m1, Server.handle_message ⟨(2 : Nat), 3, [1, 2, 3, 4], true, c, t⟩ e TLV_COMPUTE p
            = some (⟨(2 : Nat), 3, m1, true, true, e⟩, be32 3 ++ be32 0)
              ∧ m1.length = 2 * 2) :=
  kernel_index_safe 2 3 [1, 2, 3, 4] (by decide) (by decide)

/-! ## Claims about the RESULT time field and the accumulator -/

/-- C13 (amended): the 8 bytes at offset 8 of the RESULT payload are the memory
image of `swap_64(raw)`, where `swap_64` passes each 32-bit half through
`htonl` and puts the low half in the high position; on the little-endian host
these 8 bytes are, for every bit pattern, exactly the plain big-endian
encoding of `raw`. -/
theorem result_time_encoding (s : Server.Session) :
    (Server.result_payload s).drop 8 = mem64 (Server.swap_64 s.time_sec)
      ∧ Server.swap_64 s.time_sec
          = htonl (s.time_sec % 4294967296) * 4294967296
            + htonl (s.time_sec / 4294967296 % 4294967296)
      ∧ (Server.result_payload s).drop 8 = be64 s.time_sec := by
  have h : (Server.result_payload s).drop 8 = mem64 (Server.swap_64 s.time_sec) := by
    simp [Server.result_payload, mem32]
  exact ⟨h, rfl, by rw [h, mem64_swap_64]⟩

/-- C13 counterexample: there is no session whose 8 written bytes differ from
the most-significant-byte-first bytes of its `time_sec` bit pattern. -/
theorem result_time_encoding_counterexample :
    ¬ ∃ s : Server.Session, (Server.result_payload s).drop 8 ≠ be64 s.time_sec := by
  rintro ⟨s, hs⟩
  apply hs
  have h : (Server.result_payload s).drop 8 = mem64 (Server.swap_64 s.time_sec) := by
    simp [Server.result_payload, mem32]
  rw [h, mem64_swap_64]

/-- C14: for every 64-bit pattern `raw`, the client's decoding of the 8-byte
field of the RESULT payload the server built from `raw` yields `raw` again;
the client's `swap_64` undoes the server's, and each `swap_64` is an
involution. -/
theorem result_time_round_trip (raw : Nat) (N W : Int) (m : List Int) (d c : Bool)
    (hraw : raw < 18446744073709551616) :
    Client.result_time (Server.result_payload ⟨N, W, m, d, c, raw⟩) = raw
      ∧ Client.swap_64 (Server.swap_64 raw) = raw
      ∧ Server.swap_64 (Server.swap_64 raw) = raw
      ∧ Client.swap_64 (Client.swap_64 raw) = raw := by
  have h := Client.swap_64_server raw hraw
  refine ⟨?_, h, h, h⟩
  unfold Client.result_time
  rw [load64_result_payload]
  show Client.swap_64 (Server.swap_64 raw % 18446744073709551616) = raw
  have hlt : Server.swap_64 raw < 18446744073709551616 := by
    have h1 := htonl_lt (raw % 4294967296)
    have h2 := htonl_lt (raw / 4294967296 % 4294967296)
    unfold Server.swap_64
    omega
  rw [Nat.mod_eq_of_lt hlt, h]

/-- C14 witness: the bit pattern of the double `1.0`. -/
theorem result_time_round_trip_witness :
    Client.result_time (Server.result_payload ⟨4, 2, [], true, true, 4607182418800017408⟩)
        = 4607182418800017408
      ∧ Client.swap_64 (Server.swap_64 4607182418800017408) = 4607182418800017408
      ∧ Server.swap_64 (Server.swap_64 4607182418800017408) = 4607182418800017408
      ∧ Client.swap_64 (Client.swap_64 4607182418800017408) = 4607182418800017408 :=
  result_time_round_trip 4607182418800017408 4 2 [] true true (by decide)

/-- C20: for every row, the value the kernel stores (the 64-bit wrapped product
truncated to 32 bits) is the exact integer product reduced modulo `2^32` and
read as a signed 32-bit integer, which is also what a wrapping 32-bit
accumulator gives; it equals the exact product exactly when that product lies
in `[-2^31, 2^31 - 1]`, which holds for at most 9 entries taken from `[1, 10]`;
and this is the value the inner loop of the kernel computes for a row. -/
theorem accumulator_width (xs : List Int) :
    i32 (prod64 xs) = i32 xs.prod
      ∧ i32 (prod64 xs) = prod32 xs
      ∧ (i32 (prod64 xs) = xs.prod ↔ (-2147483648 ≤ xs.prod ∧ xs.prod < 2147483648))
      ∧ ((∀ x ∈ xs, 1 ≤ x ∧ x ≤ 10) → xs.length ≤ 9 → i32 (prod64 xs) = xs.prod)
      ∧ (∀ (mat : List Int) (N i : Nat), row mat N i = xs → i * N + N ≤ mat.length →
          i * N + N ≤ 2147483648 →
          (Server.row_loop mat N i (N : Int).toNat 0 1).map i32 = some (i32 xs.prod)) := by
  have h64 : i32 (prod64 xs) = i32 xs.prod := by
    apply i32_congr
    unfold prod64
    rw [foldl64_emod, one_mul]
  have h32 : prod32 xs = i32 xs.prod := by
    have hr := foldl32_range xs 1 (by decide) (by decide)
    have he := foldl32_emod xs 1
    rw [one_mul] at he
    have : i32 (prod32 xs) = i32 xs.prod := i32_congr _ _ he
    rw [← this]
    exact ((i32_eq_self_iff _).mpr hr).symm
  refine ⟨h64, by rw [h64, h32], ?_, ?_, ?_⟩
  · rw [h64]
    exact i32_eq_self_iff _
  · intro hx hlen
    rw [h64]
    obtain ⟨p1, p2⟩ := prod_small xs hx
    have p3 : (10 : Int) ^ xs.length ≤ 10 ^ 9 := pow_le_pow_right₀ (by decide) hlen
    apply (i32_eq_self_iff _).mpr
    constructor
    · omega
    · have : (10 : Int) ^ 9 < 2147483648 := by norm_num
      omega
  · intro mat N i hrow h1 h2
    rw [Server.row_loop_row mat N i h1 h2, hrow, Option.map_some', h64]

/-- C20 witness: the row `[65536, 65536]`, whose product `2^32` is stored as
`0`. -/
theorem accumulator_width_witness :
    (i32 (prod64 [65536, 65536]) = i32 ([65536, 65536] : List Int).prod
      ∧ i32 (prod64 [65536, 65536]) = prod32 [65536, 65536]
      ∧ (i32 (prod64 [65536, 65536]) = ([65536, 65536] : List Int).prod
          ↔ (-2147483648 ≤ ([65536, 65536] : List Int).prod
              ∧ ([65536, 65536] : List Int).prod < 2147483648))
      ∧ ((∀ x ∈ ([65536, 65536] : List Int), 1 ≤ x ∧ x ≤ 10) →
          ([65536, 65536] : List Int).length ≤ 9 →
          i32 (prod64 [65536, 65536]) = ([65536, 65536] : List Int).prod)
      ∧ (∀ (mat : List Int) (N i : Nat), row mat N i = [65536, 65536] →
          i * N + N ≤ mat.length → i * N + N ≤ 2147483648 →
          (Server.row_loop mat N i (N : Int).toNat 0 1).map i32
            = some (i32 ([65536, 65536] : List Int).prod)))
      ∧ i32 (prod64 [65536, 65536]) = 0 :=
  ⟨accumulator_width [65536, 65536], by decide⟩

/-! ## Claims about the DATA payload -/

/-- C15: for every `N ≥ 0` with `4 * N * N` representable and every `N × N`
matrix of signed 32-bit integers, the client's DATA payload has exactly
`4 * N * N` bytes, entry `i` occupying bytes `4i .. 4i+3` in big-endian order,
and the server's DATA case with `N` as matrix size decodes it into exactly the
client's matrix (negative entries included). -/
theorem data_round_trip (N : Nat) (m : List Int) (s : Server.Session) (e : Nat)
    (h4 : 4 * (N * N) < 2147483648) (hm : m.length = N * N)
    (hr : ∀ x ∈ m, -2147483648 ≤ x ∧ x < 2147483648) (hs : s.N = (N : Int)) :
    (Client.data_payload m).length = 4 * (N * N)
      ∧ (∀ (i : Nat) (x : Int), m[i]? = some x →
          ((Client.data_payload m).drop (4 * i)).take 4 = be32 (u32 x))
      ∧ Server.handle_message s e TLV_DATA (Client.data_payload m)
          = some (⟨(N : Int), s.thread_count, m, true, s.computed, s.time_sec⟩,
              be32 2 ++ be32 0) := by
  have hlen : (Client.data_payload m).length = 4 * (N * N) := by
    rw [Client.data_payload_length, hm]
  have hsq : (s.N * s.N).toNat = m.length := by
    rw [hs, hm, ← Nat.cast_mul, Int.toNat_ofNat]
  refine ⟨hlen, Client.data_payload_word m, ?_⟩
  rw [Server.handle_data s e _ (by rw [hs]; exact_mod_cast (by omega : N * N < 2147483648))
    (by rw [hsq, hlen, hm]), hsq, Server.data_loop_decodes m _ hr, hs]

/-- C15 witness: the `2 × 2` matrix `[[-1, 2], [-2147483648, 2147483647]]`. -/
theorem data_round_trip_witness :
    (Client.data_payload [-1, 2, -2147483648, 2147483647]).length = 4 * (2 * 2)
      ∧ (∀ (i : Nat) (x : Int), [-1, 2, -2147483648, 2147483647][i]? = some x →
          ((Client.data_payload [-1, 2, -2147483648, 2147483647]).drop (4 * i)).take 4
            = be32 (u32 x))
      ∧ Server.handle_message ⟨2, 1, [], false, false, 0⟩ 0 TLV_DATA
            (Client.data_payload [-1, 2, -2147483648, 2147483647])
          = some (⟨((2 : Nat) : Int), (⟨2, 1, [], false, false, 0⟩ : Server.Session).thread_count,
                [-1, 2, -2147483648, 2147483647], true,
                (⟨2, 1, [], false, false, 0⟩ : Server.Session).computed,
                (⟨2, 1, [], false, false, 0⟩ : Server.Session).time_sec⟩,
              be32 2 ++ be32 0) :=
  data_round_trip 2 [-1, 2, -2147483648, 2147483647] ⟨2, 1, [], false, false, 0⟩ 0
    (by decide) (by decide) (by decide) (by decide)

/-! ## Claims about the independence of the worker count -/

/-- C18: for every `N ≥ 0`, every `N × N` matrix and every two worker counts
the kernel gives the same outcome, and it is the outcome of processing the rows
`0..N-1` one after another in any order (a final matrix whenever `N * N` is
representable); the block of a row reads only the cells of that row and writes
only its anti-diagonal cell, and the cells of distinct rows are distinct. -/
theorem worker_count_independent (N : Nat) (m : List Int) (W1 W2 : Int) (order : List Nat)
    (hm : m.length = N * N) (hperm : order.Perm (List.range N)) :
    Server.place_secondary_diagonal m N W1 = Server.place_secondary_diagonal m N W2
      ∧ Server.place_secondary_diagonal m N W1 = process_rows N order m
      ∧ (N * N < 2147483648 →
          ∃ m1, Server.place_secondary_diagonal m N W1 = some m1 ∧ m1.length = N * N)
      ∧ (∀ (mat : List Int) (r : Nat), r < N → mat.length = N * N → N * N < 2147483648 →
          Server.worker N mat r (r + 1)
            = some (mat.set (r * N + (N - 1 - r)) (i32 (prod64 (row mat N r)))))
      ∧ (∀ r r1 j j1 : Nat, r < N → r1 < N → r ≠ r1 → j < N → j1 < N →
          r * N + j ≠ r1 * N + j1) := by
  refine ⟨?_, process_rows_kernel N m hm W1 order hperm,
    fun hNN => Server.kernel_total N W1 m hNN hm,
    fun mat r hr hl hNN => Server.worker_row N mat r hr hl hNN, ?_⟩
  · rw [Server.place_secondary_diagonal_seq m N W1 (by omega),
      Server.place_secondary_diagonal_seq m N W2 (by omega)]
  · intro r r1 j j1 _ _ hne hj hj1 heq
    rcases Nat.lt_or_gt_of_ne hne with h | h
    · have := rows_apart N r r1 h
      omega
    · have := rows_apart N r1 r h
      omega

/-- C18 witness: the matrix `[[1, 2], [3, 4]]` with one and with two workers,
and the rows taken in the order `1, 0`. -/
theorem worker_count_independent_witness :
    Server.place_secondary_diagonal [1, 2, 3, 4] (2 : Nat) 1
        = Server.place_secondary_diagonal [1, 2, 3, 4] (2 : Nat) 2
      ∧ Server.place_secondary_diagonal [1, 2, 3, 4] (2 : Nat) 1
        = process_rows (2 : Nat) [1, 0] [1, 2, 3, 4]
      ∧ (2 * 2 < 2147483648 →
          ∃ m1, Server.place_secondary_diagonal [1, 2, 3, 4] (2 : Nat) 1 = some m1
            ∧ m1.length = 2 * 2)
      ∧ (∀ (mat : List Int) (r : Nat), r < 2 → mat.length = 2 * 2 → 2 * 2 < 2147483648 →
          Server.worker (2 : Nat) mat r (r + 1)
            = some (mat.set (r * 2 + (2 - 1 - r)) (i32 (prod64 (row mat 2 r)))))
      ∧ (∀ r r1 j j1 : Nat, r < 2 → r1 < 2 → r ≠ r1 → j < 2 → j1 < 2 →
          r * 2 + j ≠ r1 * 2 + j1) :=
  worker_count_independent 2 [1, 2, 3, 4] 1 2 [1, 0] (by decide) (by decide)

/-! ## Claims about the client run -/

/-- C16 (the code at the failing input): the peer closes the connection
without sending any reply.  The decoding of the CONFIG acknowledgement fails,
yet for every bound on the STATUS loop the run is still polling: it has sent
CONFIG, DATA, COMPUTE and one STATUS request per iteration, and has reported
no failure.  Only the RESULT step ends the run with the failure. -/
theorem client_run_on_closed_connection :
    (Client.recv_tlv [] 0 []).ok = false
      ∧ (∀ fuel, (Client.main fuel [] 2 1 [1, 2, 3, 4]).2 = Client.Outcome.polling)
      ∧ (∀ fuel, (Client.main fuel [] 2 1 [1, 2, 3, 4]).1.wire
          = be32 1 ++ (be32 8 ++ Client.config_payload 2 1)
            ++ (be32 2 ++ (be32 16 ++ Client.data_payload [1, 2, 3, 4]))
            ++ (be32 3 ++ be32 0)
            ++ (List.replicate fuel (be32 4 ++ be32 0)).flatten)
      ∧ Client.main 1
          [be32 1 ++ be32 0, be32 2 ++ be32 0, be32 3 ++ be32 0, be32 4 ++ (be32 1 ++ [2])]
          2 1 [1, 2, 3, 4]
        = (⟨[], be32 1 ++ (be32 8 ++ Client.config_payload 2 1)
              ++ (be32 2 ++ (be32 16 ++ Client.data_payload [1, 2, 3, 4]))
              ++ (be32 3 ++ be32 0) ++ (be32 4 ++ be32 0) ++ (be32 5 ++ be32 0)⟩,
            Client.Outcome.failed) := by
  have h1 := Client.do_ack_closed [] TLV_CONFIG (Client.config_payload 2 1) (by decide)
  have h2 := Client.do_ack_closed ([] ++ (be32 TLV_CONFIG
    ++ (be32 (Client.config_payload 2 1).length ++ Client.config_payload 2 1)))
    TLV_DATA (Client.data_payload [1, 2, 3, 4]) (by decide)
  have h3 := Client.do_ack_closed (([] ++ (be32 TLV_CONFIG
    ++ (be32 (Client.config_payload 2 1).length ++ Client.config_payload 2 1)))
    ++ (be32 TLV_DATA ++ (be32 (Client.data_payload [1, 2, 3, 4]).length
      ++ Client.data_payload [1, 2, 3, 4]))) TLV_COMPUTE [] (by decide)
  have hmain : ∀ fuel, Client.main fuel [] 2 1 [1, 2, 3, 4]
      = (⟨[], be32 1 ++ (be32 8 ++ Client.config_payload 2 1)
            ++ (be32 2 ++ (be32 16 ++ Client.data_payload [1, 2, 3, 4]))
            ++ (be32 3 ++ be32 0)
            ++ (List.replicate fuel (be32 4 ++ be32 0)).flatten⟩, Client.Outcome.polling) := by
    intro fuel
    unfold Client.main
    simp only [h1, h2, h3, Client.poll_loop_closed, Bool.false_eq_true, if_false]
    rfl
  refine ⟨by decide, fun fuel => by rw [hmain], fun fuel => by rw [hmain], by decide⟩

end Lab4
